import Mathlib

/-!
Verification development for the bank-reconciliation tool.

The frontend components (pagination, exception rendering) are embedded
directly from the JavaScript/JSX sources.  The reconciliation core
(matching engine, economic validator, exception detector) is shipped as a
separate package whose sources are not part of this repository checkout;
those components are modelled from the specification document.
-/

namespace Ui

/-- Style record for one severity level, as in SEVERITY_CONFIG of
src/frontend/src/pages/Exceptions.jsx (the icon component is represented
by its imported name). -/
structure SeverityStyle where
  iconName : String
  color : String
  bg : String
  text : String
  border : String
deriving DecidableEq, Repr

/-- SEVERITY_CONFIG.high from Exceptions.jsx. -/
def severityHigh : SeverityStyle :=
  { iconName := "AlertCircle", color := "red", bg := "bg-red-100"
  , text := "text-red-700", border := "border-red-200" }

/-- SEVERITY_CONFIG.medium from Exceptions.jsx. -/
def severityMedium : SeverityStyle :=
  { iconName := "AlertTriangle", color := "yellow", bg := "bg-yellow-100"
  , text := "text-yellow-700", border := "border-yellow-200" }

/-- SEVERITY_CONFIG.low from Exceptions.jsx. -/
def severityLow : SeverityStyle :=
  { iconName := "Info", color := "blue", bg := "bg-blue-100"
  , text := "text-blue-700", border := "border-blue-200" }

/-- The SEVERITY_CONFIG object literal of Exceptions.jsx as an association
list over its own keys. -/
def SEVERITY_CONFIG : List (String × SeverityStyle) :=
  [("high", severityHigh), ("medium", severityMedium), ("low", severityLow)]

/-- The property names a plain object literal resolves through its
prototype chain: the Object.prototype methods and accessors.  Each of them
resolves to a function or object value, which is truthy, not to
undefined. -/
def objectProtoKeys : List String :=
  ["constructor", "hasOwnProperty", "isPrototypeOf", "propertyIsEnumerable",
   "toLocaleString", "toString", "valueOf", "__proto__",
   "__defineGetter__", "__defineSetter__", "__lookupGetter__", "__lookupSetter__"]

/-- A JavaScript value produced by bracket access on the SEVERITY_CONFIG
object: an own-property style record, a truthy value inherited from
Object.prototype, or undefined. -/
inductive JsValue where
  | styleVal (st : SeverityStyle)
  | protoVal (name : String)
  | undef
deriving DecidableEq, Repr

/-- Bracket access SEVERITY_CONFIG[sev] in ExceptionCard (Exceptions.jsx
line 33): an own key yields its style record; any other key is resolved
through the prototype chain, so an Object.prototype property name yields
the truthy inherited value; everything else (including an absent severity
field, modelled as none) is undefined. -/
def severityLookup (sev : Option String) : JsValue :=
  match sev with
  | none => JsValue.undef
  | some k =>
    match (SEVERITY_CONFIG.find? (fun p => p.1 == k)).map (fun p => p.2) with
    | some st => JsValue.styleVal st
    | none => if k ∈ objectProtoKeys then JsValue.protoVal k else JsValue.undef

/-- JavaScript truthiness of a bracket-access result: functions and
objects are truthy, undefined is falsy. -/
def isTruthy : JsValue → Bool
  | JsValue.styleVal _ => true
  | JsValue.protoVal _ => true
  | JsValue.undef => false

/-- The value bound to `severity` in ExceptionCard:
SEVERITY_CONFIG[exception.severity] or-else SEVERITY_CONFIG.medium; the
or-else fallback fires only when the bracket access is falsy. -/
def severityValue (sev : Option String) : JsValue :=
  if isTruthy (severityLookup sev) then severityLookup sev
  else JsValue.styleVal severityMedium

/-- What ExceptionCard renders with: the style fields of `severity` when
it is a style record.  A truthy inherited value has no icon/bg/text
fields, so `severity.icon` is undefined and rendering the icon element
fails; that failure is modelled as none. -/
def exceptionCardRender (sev : Option String) : Option SeverityStyle :=
  match severityValue sev with
  | JsValue.styleVal st => some st
  | _ => none

/-- One entry of the list built by getPageNumbers in the Pagination
component: either a page number or the ellipsis placeholder. -/
inductive PageItem where
  | num (n : Int)
  | dots
deriving DecidableEq, Repr

/-- The JavaScript loop `for (let i = start; i <= end; i++) pages.push(i)`,
as the list of `len` consecutive integers starting at `lo`. -/
def intRange (lo : Int) : Nat → List Int
  | 0 => []
  | n + 1 => lo :: intRange (lo + 1) n

/-- `start` after both adjustments in getPageNumbers: the initial value
`max 2 (currentPage - 1)` is overwritten with `totalPages - 3` when
`currentPage >= totalPages - 2`. -/
def pageRangeStart (currentPage totalPages : Int) : Int :=
  if totalPages - 2 ≤ currentPage then totalPages - 3 else max 2 (currentPage - 1)

/-- `end` after its adjustment in getPageNumbers: the initial value
`min (totalPages - 1) (currentPage + 1)` is overwritten with 4 when
`currentPage <= 3`. -/
def pageRangeEnd (currentPage totalPages : Int) : Int :=
  if currentPage ≤ 3 then 4 else min (totalPages - 1) (currentPage + 1)

/-- getPageNumbers from the Pagination component (src/unnamed/part_001,
lines 16-62): with at most maxVisible = 5 pages, all page numbers; else
page 1, an optional ellipsis, the middle run from start to end, an
optional ellipsis, and the last page. -/
def getPageNumbers (currentPage totalPages : Int) : List PageItem :=
  if totalPages ≤ 5 then
    (intRange 1 totalPages.toNat).map PageItem.num
  else
    [PageItem.num 1]
      ++ (if 2 < pageRangeStart currentPage totalPages then [PageItem.dots] else [])
      ++ (intRange (pageRangeStart currentPage totalPages)
            (pageRangeEnd currentPage totalPages
              - pageRangeStart currentPage totalPages + 1).toNat).map PageItem.num
      ++ (if pageRangeEnd currentPage totalPages < totalPages - 1
          then [PageItem.dots] else [])
      ++ [PageItem.num totalPages]

/-- The numeric entries of a page-item list, in order. -/
def pageNumbersOf (l : List PageItem) : List Int :=
  l.filterMap (fun i => match i with | PageItem.num n => some n | PageItem.dots => none)

end Ui

namespace Recon

/-- Modelled from the spec (section 3, the sources under src/ contain only
the README and the web frontend, not the core package): a normalized
transaction.  Dates are day numbers, amounts are signed minor units
(cents). -/
structure Transaction where
  tid : String
  date : Int
  amountCents : Int
  vendorName : Option String
  checkNumber : Option String
  descr : String
deriving DecidableEq, Repr

/-- Modelled from the spec (section 6 configuration surface): the matching
configuration.  amountTolerancePercent is a fraction (default 1/100 for
one percent), dateToleranceDays and fuzzyMatchThreshold (0-100) as
documented. -/
structure Config where
  fuzzyMatchThreshold : ℚ
  dateToleranceDays : ℚ
  amountTolerancePercent : ℚ
deriving DecidableEq, Repr

/-- The documented default configuration (threshold 85, five days, one
percent). -/
def defaultConfig : Config :=
  { fuzzyMatchThreshold := 85, dateToleranceDays := 5
  , amountTolerancePercent := 1 / 100 }

/-- Modelled from the spec (section 3): the kind of a match candidate. -/
inductive MatchType where
  | exact
  | fuzzy
  | batch
deriving DecidableEq, Repr

/-- Modelled from the spec (section 3): a match candidate produced by the
matching engine. -/
structure MatchCandidate where
  bankId : String
  apIds : List String
  matchType : MatchType
  rawScore : ℚ
  matchReasons : List String
deriving DecidableEq, Repr

/-- Modelled from the spec (section 3): a final match, a candidate plus
post-economic-adjustment confidence and economic warning flags. -/
structure Match where
  cand : MatchCandidate
  confidence : ℚ
  economicFlags : List String
deriving DecidableEq, Repr

/-- Ids of a transaction list, in order. -/
def idsOf (ts : List Transaction) : List String := ts.map (fun t => t.tid)

/-- The unsigned magnitude of a transaction amount in minor units, as a
rational; the sign convention is fixed per side, so comparisons are on
magnitudes. -/
def mag (t : Transaction) : ℚ := (t.amountCents.natAbs : ℚ)

/-- Clamp a rational into the unit interval. -/
def clamp01 (x : ℚ) : ℚ := max 0 (min 1 x)

/-- Modelled from the spec (section 4.1 pass 1): a bank and an AP
transaction pair exactly when both carry a check/reference number, the
numbers agree, and the amounts agree at minor-unit precision. -/
def exactPair (b a : Transaction) : Bool :=
  match b.checkNumber, a.checkNumber with
  | some cb, some ca => cb == ca && b.amountCents.natAbs == a.amountCents.natAbs
  | _, _ => false

/-- First AP transaction of the pool that pairs exactly with `b`. -/
def findExact (b : Transaction) : List Transaction → Option Transaction
  | [] => none
  | a :: rest => if exactPair b a then some a else findExact b rest

/-- Remove a consumed AP combination from the pool, by id. -/
def removeCombo (combo pool : List Transaction) : List Transaction :=
  pool.filter (fun a => !((combo.map (fun t => t.tid)).contains a.tid))

/-- Generic pass runner shared by pass 1 and pass 3: walk the bank pool in
order; when `pick` selects a combination of AP transactions from the
current AP pool, emit `mk b combo` and remove the combination from the
pool, otherwise leave the bank transaction in the unmatched residue. -/
def scanMatch (pick : Transaction → List Transaction → Option (List Transaction))
    (mk : Transaction → List Transaction → MatchCandidate) :
    List Transaction → List Transaction →
      List MatchCandidate × List Transaction × List Transaction
  | [], aps => ([], [], aps)
  | b :: bs, aps =>
    match pick b aps with
    | some combo =>
      let r := scanMatch pick mk bs (removeCombo combo aps)
      (mk b combo :: r.1, r.2.1, r.2.2)
    | none =>
      let r := scanMatch pick mk bs aps
      (r.1, b :: r.2.1, r.2.2)

/-- Pass-1 selection: the first exactly-pairing AP transaction, as a
one-element combination. -/
def pass1Pick (b : Transaction) (pool : List Transaction) : Option (List Transaction) :=
  (findExact b pool).map (fun a => [a])

/-- Pass-1 match candidate: match type exact, raw score fixed at 1. -/
def pass1Mk (b : Transaction) (combo : List Transaction) : MatchCandidate :=
  { bankId := b.tid, apIds := combo.map (fun t => t.tid), matchType := MatchType.exact
  , rawScore := 1, matchReasons := ["exact check number and amount"] }

/-- Modelled from the spec (section 4.1): pass 1, exact matching. -/
def pass1 (banks aps : List Transaction) :
    List MatchCandidate × List Transaction × List Transaction :=
  scanMatch pass1Pick pass1Mk banks aps

/-- Lower-case an ASCII letter, identity elsewhere. -/
def lowChar (c : Char) : Char :=
  if 65 ≤ c.toNat ∧ c.toNat ≤ 90 then Char.ofNat (c.toNat + 32) else c

/-- Split a character list into maximal alphanumeric tokens, lower-cased;
the accumulator holds the current token reversed. -/
def splitTokens : List Char → List Char → List (List Char)
  | [], acc => if acc.isEmpty then [] else [acc.reverse]
  | c :: cs, acc =>
    if c.isAlphanum then splitTokens cs (lowChar c :: acc)
    else (if acc.isEmpty then [] else [acc.reverse]) ++ splitTokens cs []

/-- Normalized vendor tokens: lower-cased alphanumeric tokens with the
common corporate suffixes stripped. -/
def normalizeVendor (s : String) : List (List Char) :=
  (splitTokens s.toList []).filter
    (fun t => !(["inc".toList, "llc".toList, "corp".toList,
      "co".toList, "ltd".toList].contains t))

/-- Number of tokens of the first list that can be matched one-to-one
against tokens of the second. -/
def countCommon : List (List Char) → List (List Char) → Nat
  | [], _ => 0
  | t :: ts, us => if us.contains t then 1 + countCommon ts (us.erase t) else countCommon ts us

/-- Modelled from the spec (section 4.1 pass 2): normalized fuzzy
vendor-name similarity in the unit interval, a token-overlap Dice
coefficient over normalized vendor tokens. -/
def vendorSimilarity (x y : Option String) : ℚ :=
  match x, y with
  | some sx, some sy =>
    let tx := normalizeVendor sx
    let ty := normalizeVendor sy
    if tx.length + ty.length = 0 then 0
    else clamp01 ((2 * (countCommon tx ty : ℚ)) / ((tx.length : ℚ) + (ty.length : ℚ)))
  | _, _ => 0

/-- Whether the character list `ys` occurs contiguously inside `xs`. -/
def charsContain (xs ys : List Char) : Bool :=
  match xs with
  | [] => ys.isEmpty
  | _ :: t => ys.isPrefixOf xs || charsContain t ys

/-- Modelled from the spec (section 4.1 pass 2): reference similarity,
1 for an exact non-empty reference match, 1/2 for a partial (substring)
match of non-empty references, 0 otherwise. -/
def referenceScore (b a : Transaction) : ℚ :=
  match b.checkNumber, a.checkNumber with
  | some rb, some ra =>
    if rb == ra && !rb.toList.isEmpty then 1
    else if !rb.toList.isEmpty && !ra.toList.isEmpty
        && (charsContain rb.toList ra.toList || charsContain ra.toList rb.toList) then 1 / 2
    else 0
  | _, _ => 0

/-- Modelled from the spec (section 4.1 pass 2): amount closeness, decaying
linearly from 1 to 0 as the relative difference approaches the amount
tolerance. -/
def amountScore (co : Config) (b a : Transaction) : ℚ :=
  if mag a = 0 then (if mag b = 0 then 1 else 0)
  else clamp01 (1 - (|mag b - mag a| / mag a) / co.amountTolerancePercent)

/-- Modelled from the spec (section 4.1 pass 2): date proximity, decaying
linearly from 1 to 0 at the date tolerance. -/
def dateScore (co : Config) (b a : Transaction) : ℚ :=
  clamp01 (1 - (((b.date - a.date).natAbs : ℚ)) / co.dateToleranceDays)

/-- Pass-2 factor weight for amount closeness (40 percent). -/
def weightAmount : ℚ := 2 / 5

/-- Pass-2 factor weight for date proximity (25 percent). -/
def weightDate : ℚ := 1 / 4

/-- Pass-2 factor weight for vendor-name similarity (25 percent). -/
def weightVendor : ℚ := 1 / 4

/-- Pass-2 factor weight for reference similarity (10 percent). -/
def weightReference : ℚ := 1 / 10

/-- Modelled from the spec (section 4.1 pass 2): the weighted fuzzy score
of a bank/AP pair, a weighted sum of the four factors. -/
def fuzzyScore (co : Config) (b a : Transaction) : ℚ :=
  weightAmount * amountScore co b a + weightDate * dateScore co b a
    + weightVendor * vendorSimilarity b.vendorName a.vendorName
    + weightReference * referenceScore b a

/-- A scored pass-2 candidate pairing. -/
structure Cand where
  bank : Transaction
  ap : Transaction
  score : ℚ
deriving DecidableEq, Repr

/-- Absolute difference of the amount magnitudes of a candidate pairing. -/
def amtDiff (c : Cand) : ℚ := |mag c.bank - mag c.ap|

/-- Modelled from the spec (section 4.1 pass 2 tie-breaking): candidate `c`
is strictly preferred to `d` when it scores higher, or scores equal with
a smaller absolute amount difference, or with equal amount difference and
an earlier AP date. -/
def Preferred (c d : Cand) : Prop :=
  d.score < c.score
    ∨ (c.score = d.score
        ∧ (amtDiff c < amtDiff d ∨ (amtDiff c = amtDiff d ∧ c.ap.date < d.ap.date)))

instance (c d : Cand) : Decidable (Preferred c d) := by
  unfold Preferred
  infer_instance

/-- Boolean form of the candidate preference order. -/
def candBetter (c d : Cand) : Bool := decide (Preferred c d)

/-- Keep the preferred of the running best and each further candidate;
on full ties the earlier candidate is kept, so selection is stable. -/
def selectBest : Cand → List Cand → Cand
  | best, [] => best
  | best, c :: cs => selectBest (if candBetter c best then c else best) cs

/-- The selected candidate of a list: the stably-first maximal candidate
under the preference order, if the list is nonempty. -/
def bestCandidate : List Cand → Option Cand
  | [] => none
  | c :: cs => some (selectBest c cs)

/-- A candidate pairing with its fuzzy score. -/
def mkCand (co : Config) (b a : Transaction) : Cand :=
  { bank := b, ap := a, score := fuzzyScore co b a }

/-- Modelled from the spec (section 4.1 pass 2): all AP candidates for one
bank transaction, scored, with candidates below the fuzzy-match-threshold
(a 0-100 value compared against 100 times the score) discarded. -/
def pass2Candidates (co : Config) (b : Transaction) (aps : List Transaction) : List Cand :=
  (aps.map (mkCand co b)).filter (fun c => decide (co.fuzzyMatchThreshold ≤ 100 * c.score))

/-- All eligible pass-2 candidate pairings over both pools, in bank order. -/
def allCandidates (co : Config) (banks aps : List Transaction) : List Cand :=
  banks.flatMap (fun b => pass2Candidates co b aps)

/-- Modelled from the spec (section 4.1 pass 2): greedy score-descending
global assignment.  Repeatedly take the globally best remaining candidate
pairing and discard every other pairing that reuses its bank or AP
transaction; a bank transaction losing a conflict is thereby re-evaluated
against its next-best candidate. -/
def pass2Assign : Nat → List Cand → List MatchCandidate
  | 0, _ => []
  | fuel + 1, cands =>
    match bestCandidate cands with
    | none => []
    | some c =>
      { bankId := c.bank.tid, apIds := [c.ap.tid], matchType := MatchType.fuzzy
      , rawScore := c.score, matchReasons := ["weighted fuzzy score"] } ::
        pass2Assign fuel
          (cands.filter (fun d => !(d.bank.tid == c.bank.tid) && !(d.ap.tid == c.ap.tid)))

/-- Modelled from the spec (section 4.1): pass 2, weighted fuzzy matching
with greedy global assignment; the residues are the pool members whose id
was not consumed by an assigned pairing. -/
def pass2 (co : Config) (banks aps : List Transaction) :
    List MatchCandidate × List Transaction × List Transaction :=
  let cands := allCandidates co banks aps
  let ms := pass2Assign cands.length cands
  let usedB := ms.map (fun m => m.bankId)
  let usedA := ms.flatMap (fun m => m.apIds)
  (ms, banks.filter (fun b => !usedB.contains b.tid),
      aps.filter (fun a => !usedA.contains a.tid))

/-- Whether two transactions name the same vendor after normalization. -/
def sameVendor (x y : Transaction) : Bool :=
  match x.vendorName, y.vendorName with
  | some vx, some vy =>
    let tx := normalizeVendor vx
    !tx.isEmpty && tx == normalizeVendor vy
  | _, _ => false

/-- Bound on the AP group size considered by the batch subset search. -/
def batchCap : Nat := 8

/-- All subsequences of a transaction list (order preserved). -/
def subseqs : List Transaction → List (List Transaction)
  | [] => [[]]
  | t :: ts => ((subseqs ts).map (fun l => t :: l)) ++ subseqs ts

/-- Summed amount magnitude of an AP combination, in minor units. -/
def comboSum (combo : List Transaction) : ℚ :=
  (((combo.map (fun t => t.amountCents.natAbs)).sum : Nat) : ℚ)

/-- Modelled from the spec (section 4.1 pass 3): the combination's summed
amounts must be within amount tolerance of the bank amount. -/
def batchSumOk (co : Config) (b : Transaction) (combo : List Transaction) : Bool :=
  decide (|comboSum combo - mag b| ≤ co.amountTolerancePercent * mag b)

/-- Modelled from the spec (section 4.1 pass 3): the bounded batch search.
Group the AP pool by same vendor within the date window, cap the group
size, and take the first combination of at least two transactions whose
amounts sum to the bank amount within tolerance. -/
def findBatch (co : Config) (b : Transaction) (aps : List Transaction) :
    Option (List Transaction) :=
  let group := (aps.filter (fun a =>
    sameVendor b a && decide (((a.date - b.date).natAbs : ℚ) ≤ co.dateToleranceDays))).take batchCap
  (subseqs group).find? (fun combo => decide (2 ≤ combo.length) && batchSumOk co b combo)

/-- Modelled from the spec (section 4.1 pass 3): batch confidence reflects
how tight the amount match was. -/
def batchConfidence (co : Config) (b : Transaction) (combo : List Transaction) : ℚ :=
  if mag b = 0 then clamp01 1
  else clamp01 (1 - (|comboSum combo - mag b| / mag b) / co.amountTolerancePercent)

/-- Pass-3 match candidate: match type batch over the combination. -/
def pass3Mk (co : Config) (b : Transaction) (combo : List Transaction) : MatchCandidate :=
  { bankId := b.tid, apIds := combo.map (fun t => t.tid), matchType := MatchType.batch
  , rawScore := batchConfidence co b combo, matchReasons := ["batch amount sum"] }

/-- Modelled from the spec (section 4.1): pass 3, batch detection. -/
def pass3 (co : Config) (banks aps : List Transaction) :
    List MatchCandidate × List Transaction × List Transaction :=
  scanMatch (findBatch co) (pass3Mk co) banks aps

/-- Output of the matching engine: matches plus the two residues. -/
structure EngineOutput where
  matchList : List MatchCandidate
  unmatchedBank : List Transaction
  unmatchedAp : List Transaction
deriving DecidableEq, Repr

/-- Modelled from the spec (section 4.1): the ordered, mutually exclusive
passes.  Each pass only sees the residue pools of the previous one. -/
def matchingEngine (co : Config) (banks aps : List Transaction) : EngineOutput :=
  let r1 := pass1 banks aps
  let r2 := pass2 co r1.2.1 r1.2.2
  let r3 := pass3 co r2.2.1 r2.2.2
  { matchList := r1.1 ++ r2.1 ++ r3.1
  , unmatchedBank := r3.2.1
  , unmatchedAp := r3.2.2 }

/-- Modelled from the spec (section 3): a market snapshot. -/
structure MarketSnapshot where
  asOf : Int
  sp500 : Option ℚ
  sp500ChangePercent : Option ℚ
  vix : Option ℚ
  fedFundsRate : Option ℚ
  treasury2y : Option ℚ
  treasury10y : Option ℚ
  yieldCurveSpread : Option ℚ
  yieldCurveInverted : Bool
  marketStatus : String
  dataSources : List String
deriving DecidableEq, Repr

/-- Modelled from the spec (section 3): the result of vendor validation. -/
structure VendorValidation where
  vendorName : String
  isPublic : Bool
  ticker : Option String
  isActive : Bool
  price : Option ℚ
deriving DecidableEq, Repr

/-- Modelled from the spec (section 4.3): the static vendor-name to ticker
table used by the resolver. -/
def vendorTickerTable : List (String × String) :=
  [("Microsoft Corp", "MSFT"), ("Amazon Web Services Inc", "AMZN"),
   ("Apple Inc", "AAPL"), ("Alphabet Inc", "GOOGL"), ("Oracle Corp", "ORCL")]

/-- Modelled from the spec (section 4.3): normalized lookup of a vendor
name against the static table. -/
def resolveTicker (name : String) : Option String :=
  (vendorTickerTable.find? (fun p => normalizeVendor p.1 == normalizeVendor name)).map
    (fun p => p.2)

/-- Modelled from the spec (section 4.3): vendor validation, a table lookup
followed by a liveness check against the quote source; a vendor is
confirmed active when its resolved ticker has a live quote. -/
def validateVendor (quotes : List (String × ℚ)) (name : String) : VendorValidation :=
  match resolveTicker name with
  | none => { vendorName := name, isPublic := false, ticker := none
            , isActive := false, price := none }
  | some t =>
    match (quotes.find? (fun q => q.1 == t)).map (fun q => q.2) with
    | some p => { vendorName := name, isPublic := true, ticker := some t
                , isActive := true, price := some p }
    | none => { vendorName := name, isPublic := true, ticker := some t
              , isActive := false, price := none }

/-- Modelled from the spec (section 4.2): the confidence boost for a
resolved, confirmed-active vendor, between 2/100 and 3/100. -/
def vendorBoost (vv : VendorValidation) : ℚ :=
  if vv.isActive && vv.ticker.isSome then
    (if (match vv.price with | some p => decide (0 < p) | none => false) then 3 / 100
     else 1 / 50)
  else 0

/-- Look up a transaction by id. -/
def findTx (ts : List Transaction) (i : String) : Option Transaction :=
  ts.find? (fun t => t.tid == i)

/-- Whether a day number falls on a weekend under the fixed epoch
convention of the model. -/
def isWeekend (d : Int) : Bool := decide (d % 7 = 0 ∨ d % 7 = 6)

/-- Whether the snapshot shows a market decline. -/
def sp500Declining (s : MarketSnapshot) : Bool :=
  match s.sp500ChangePercent with | some c => decide (c < 0) | none => false

/-- Modelled from the spec (section 4.2): the informational, non-blocking
flags for a match, given its bank transaction. -/
def matchFlags (s : MarketSnapshot) (bankTx : Option Transaction) : List String :=
  (if (match s.vix with | some v => decide (30 < v) | none => false)
   then ["high_volatility"] else [])
  ++ (if s.yieldCurveInverted then ["yield_curve_inverted"] else [])
  ++ (match bankTx with
      | some b =>
        (if isWeekend b.date then ["weekend_posting"] else [])
        ++ (if decide (10000000 < b.amountCents.natAbs) && sp500Declining s
            then ["sp500_decline_context"] else [])
        ++ (if decide (50000000 < b.amountCents.natAbs)
            then ["requires_wire_authorization"] else [])
      | none => [])

/-- Vendor name carried by the (first) AP transaction of a match. -/
def vendorOfMatch (aps : List Transaction) (m : MatchCandidate) : Option String :=
  (m.apIds.head?.bind (findTx aps)).bind (fun a => a.vendorName)

/-- The boost applied to one match: the confirmed-active vendor boost of
its resolved vendor, zero when the vendor is absent. -/
def matchBoost (quotes : List (String × ℚ)) (aps : List Transaction)
    (cand : MatchCandidate) : ℚ :=
  match vendorOfMatch aps cand with
  | some n => vendorBoost (validateVendor quotes n)
  | none => 0

/-- Modelled from the spec (section 4.2): per-match economic adjustment.
Without a snapshot the match is returned unchanged; with one, the
confirmed-active vendor boost is added (capped so confidence never
exceeds 1) and the informational flags are appended. -/
def adjustMatch (snap : Option MarketSnapshot) (quotes : List (String × ℚ))
    (banks aps : List Transaction) (m : Match) : Match :=
  match snap with
  | none => m
  | some s =>
    { m with confidence := min 1 (m.confidence + matchBoost quotes aps m.cand)
           , economicFlags := m.economicFlags ++ matchFlags s (findTx banks m.cand.bankId) }

/-- Modelled from the spec (section 4.2): the economic validator over all
matches. -/
def economicValidate (snap : Option MarketSnapshot) (quotes : List (String × ℚ))
    (banks aps : List Transaction) (ms : List Match) : List Match :=
  ms.map (adjustMatch snap quotes banks aps)

/-- Modelled from the spec (section 4.4): the fixed exception taxonomy. -/
inductive ExceptionType where
  | missingApRecord
  | missingBankRecord
  | duplicatePayment
  | amountMismatch
  | staleCheck
deriving DecidableEq, Repr

/-- Modelled from the spec (section 4.4): the severity scale. -/
inductive Severity where
  | low
  | medium
  | high
deriving DecidableEq, Repr

/-- Modelled from the spec (section 4.4): the fixed severity of each
exception type. -/
def severityOf : ExceptionType → Severity
  | ExceptionType.missingApRecord => Severity.medium
  | ExceptionType.missingBankRecord => Severity.high
  | ExceptionType.duplicatePayment => Severity.high
  | ExceptionType.amountMismatch => Severity.medium
  | ExceptionType.staleCheck => Severity.low

/-- Modelled from the spec (section 3): a classified exception. -/
structure RecException where
  etype : ExceptionType
  severity : Severity
  transactionId : Option String
  amountCents : Int
  descr : String
  suggestedAction : String
deriving DecidableEq, Repr

/-- The only constructor the detector uses: the severity always comes from
the fixed mapping. -/
def mkException (t : ExceptionType) (tid : Option String) (amt : Int)
    (d act : String) : RecException :=
  { etype := t, severity := severityOf t, transactionId := tid
  , amountCents := amt, descr := d, suggestedAction := act }

/-- Whether two AP transactions are a duplicate-payment pair: same vendor,
same amount, posted within seven days of each other. -/
def duplicatePair (x y : Transaction) : Bool :=
  sameVendor x y && x.amountCents == y.amountCents && decide ((y.date - x.date).natAbs ≤ 7)

/-- All duplicate-payment pairs of the AP residue, each earlier transaction
paired with each later duplicate. -/
def duplicatePairs : List Transaction → List (Transaction × Transaction)
  | [] => []
  | a :: rest =>
    ((rest.filter (fun x => duplicatePair a x)).map (fun x => (a, x)))
      ++ duplicatePairs rest

/-- One missing-AP-record exception per unmatched bank transaction. -/
def exceptionsMissingAp (unB : List Transaction) : List RecException :=
  unB.map (fun b => mkException ExceptionType.missingApRecord (some b.tid) b.amountCents
    "bank transaction with no AP match" "Investigate bank transaction")

/-- One duplicate-payment exception per duplicate pair of the AP residue. -/
def exceptionsDuplicate (unA : List Transaction) : List RecException :=
  (duplicatePairs unA).map (fun p =>
    mkException ExceptionType.duplicatePayment (some p.2.tid) p.2.amountCents
      "same vendor and amount within 7 days" "Review potential duplicate")

/-- One missing-bank-record exception per unmatched AP transaction. -/
def exceptionsMissingBank (unA : List Transaction) : List RecException :=
  unA.map (fun a => mkException ExceptionType.missingBankRecord (some a.tid) a.amountCents
    "AP payment not found in bank" "Confirm payment issuance")

/-- Amount-mismatch exceptions: fuzzy-matched pairs whose magnitudes differ
beyond the amount tolerance. -/
def exceptionsAmountMismatch (co : Config) (ms : List MatchCandidate)
    (banks aps : List Transaction) : List RecException :=
  ms.filterMap (fun m =>
    (findTx banks m.bankId).bind (fun b =>
      (m.apIds.head?.bind (findTx aps)).bind (fun a =>
        if m.matchType == MatchType.fuzzy
            && decide (co.amountTolerancePercent * mag a < |mag b - mag a|) then
          some (mkException ExceptionType.amountMismatch (some m.bankId) b.amountCents
            "matched amounts differ beyond tolerance" "Verify invoice amount")
        else none)))

/-- Stale-check exceptions: matched AP check transactions cleared more than
90 days after their issue date. -/
def exceptionsStaleCheck (ms : List MatchCandidate)
    (banks aps : List Transaction) : List RecException :=
  ms.filterMap (fun m =>
    (findTx banks m.bankId).bind (fun b =>
      (m.apIds.head?.bind (findTx aps)).bind (fun a =>
        if a.checkNumber.isSome && decide (90 < b.date - a.date) then
          some (mkException ExceptionType.staleCheck (some a.tid) a.amountCents
            "check cleared more than 90 days after issue" "Review stale check")
        else none)))

/-- Modelled from the spec (section 4.4): the exception detector.
Duplicate payments are checked across the whole AP residue before any
missing-bank-record exception is raised. -/
def detectExceptions (co : Config) (ms : List MatchCandidate)
    (banks aps unB unA : List Transaction) : List RecException :=
  exceptionsMissingAp unB
    ++ exceptionsDuplicate unA
    ++ exceptionsMissingBank unA
    ++ exceptionsAmountMismatch co ms banks aps
    ++ exceptionsStaleCheck ms banks aps

/-- Modelled from the spec (section 6): the reconciliation summary. -/
structure Summary where
  matchedCount : Nat
  exceptionCount : Nat
  matchRate : ℚ
  totalMatchedAmountCents : Int
deriving DecidableEq, Repr

/-- Modelled from the spec (section 6): the structured reconciliation
result. -/
structure ReconResult where
  matchList : List Match
  exceptions : List RecException
  summary : Summary
deriving DecidableEq, Repr

/-- Modelled from the spec (section 4.3): the external market-data world,
an ordered list of snapshot sources (none for a source that failed or is
not configured) and a ticker quote table. -/
structure ProviderData where
  snapshotSources : List (Option MarketSnapshot)
  quotes : List (String × ℚ)
deriving DecidableEq, Repr

/-- Modelled from the spec (section 4.3): the time-boxed snapshot cache. -/
structure MarketCache where
  storedSnapshot : Option MarketSnapshot
deriving DecidableEq, Repr

/-- A fresh, empty cache. -/
def emptyCache : MarketCache := { storedSnapshot := none }

/-- The first source that actually answered. -/
def firstSome : List (Option MarketSnapshot) → Option MarketSnapshot
  | [] => none
  | some s :: _ => some s
  | none :: rest => firstSome rest

/-- Modelled from the spec (section 4.3): primary-first-with-fallback
snapshot fetch through the cache; when every source fails the result is
an absent snapshot, never an error. -/
def fetchSnapshot (pd : ProviderData) (c : MarketCache) :
    Option MarketSnapshot × MarketCache :=
  match c.storedSnapshot with
  | some s => (some s, c)
  | none =>
    match firstSome pd.snapshotSources with
    | some s => (some s, { storedSnapshot := some s })
    | none => (none, c)

/-- Initial matches: engine candidates with pre-adjustment confidence equal
to the raw score and no flags. -/
def initialMatches (eng : EngineOutput) : List Match :=
  eng.matchList.map (fun cd => { cand := cd, confidence := cd.rawScore, economicFlags := [] })

/-- Total matched bank amount, in minor units. -/
def totalMatched (banks : List Transaction) (ms : List Match) : Int :=
  (ms.filterMap (fun m => (findTx banks m.cand.bankId).map (fun b => (b.amountCents.natAbs : Int)))).sum

/-- Modelled from the spec (section 6): the full reconciliation pipeline,
with the market-data cache passed explicitly. -/
def reconcile (co : Config) (pd : ProviderData) (c : MarketCache)
    (banks aps : List Transaction) : ReconResult × MarketCache :=
  let fetched := fetchSnapshot pd c
  let eng := matchingEngine co banks aps
  let ms := economicValidate fetched.1 pd.quotes banks aps (initialMatches eng)
  let exs := detectExceptions co eng.matchList banks aps eng.unmatchedBank eng.unmatchedAp
  ({ matchList := ms
   , exceptions := exs
   , summary :=
     { matchedCount := ms.length
     , exceptionCount := exs.length
     , matchRate := if banks.length = 0 then 0 else (ms.length : ℚ) / (banks.length : ℚ)
     , totalMatchedAmountCents := totalMatched banks ms } }, fetched.2)

/-- Sample bank transaction used in concrete checks. -/
def wBank1 : Transaction :=
  { tid := "B1", date := 100, amountCents := -150000, vendorName := none
  , checkNumber := some "1042", descr := "check 1042" }

/-- Sample AP transaction pairing exactly with wBank1. -/
def wAp1 : Transaction :=
  { tid := "A1", date := 99, amountCents := 150000, vendorName := none
  , checkNumber := some "1042", descr := "check 1042" }

/-- Sample bank transaction for the fuzzy-selection check: no vendor or
reference. -/
def wBank2 : Transaction :=
  { tid := "B2", date := 50, amountCents := -10000, vendorName := none
  , checkNumber := none, descr := "" }

/-- Sample AP transaction for the fuzzy-selection check, same magnitude
and date as wBank2. -/
def wAp2 : Transaction :=
  { tid := "A2", date := 50, amountCents := 10000, vendorName := none
  , checkNumber := none, descr := "" }

/-- Permissive configuration used in concrete checks. -/
def wConfig : Config :=
  { fuzzyMatchThreshold := 50, dateToleranceDays := 5
  , amountTolerancePercent := 1 / 100 }

/-- Sample AP duplicate-payment pair, same vendor and amount, three days
apart. -/
def wDup1 : Transaction :=
  { tid := "D1", date := 10, amountCents := 75000, vendorName := some "Acme"
  , checkNumber := none, descr := "" }

/-- Second element of the sample duplicate pair. -/
def wDup2 : Transaction :=
  { tid := "D2", date := 13, amountCents := 75000, vendorName := some "Acme"
  , checkNumber := none, descr := "" }

end Recon

namespace Ui

theorem mem_intRange : ∀ (n : Nat) (lo x : Int), x ∈ intRange lo n ↔ lo ≤ x ∧ x < lo + n := by
  intro n
  induction n with
  | zero => intro lo x; simp [intRange]
  | succ m ih =>
    intro lo x
    simp only [intRange, List.mem_cons, ih]
    omega

theorem intRange_headq (n : Nat) (lo : Int) (h : 0 < n) :
    (intRange lo n).head? = some lo := by
  cases n with
  | zero => omega
  | succ m => rfl

theorem chain_lt_intRange : ∀ (n : Nat) (lo : Int),
    List.Chain' (fun a b => a < b) (intRange lo n) := by
  intro n
  induction n with
  | zero => intro lo; simp [intRange]
  | succ m ih =>
    intro lo
    rw [show intRange lo (m + 1) = lo :: intRange (lo + 1) m from rfl]
    refine List.chain'_cons'.mpr ⟨?_, ih (lo + 1)⟩
    intro y hy
    cases m with
    | zero => simp [intRange] at hy
    | succ k =>
      rw [intRange_headq (k + 1) (lo + 1) (by omega)] at hy
      simp only [Option.mem_def, Option.some.injEq] at hy
      omega

theorem pageNumbersOf_map_num (l : List Int) :
    pageNumbersOf (l.map PageItem.num) = l := by
  induction l with
  | nil => rfl
  | cons a t ih => simpa [pageNumbersOf] using ih

theorem chain'_of_total {α : Type} {R : α → α → Prop} (h : ∀ a b, R a b) :
    ∀ l : List α, List.Chain' R l := by
  intro l
  induction l with
  | nil => simp
  | cons a t ih => exact List.chain'_cons'.mpr ⟨fun y _ => h a y, ih⟩

/-- Claim C10, counterexample: the severity string constructor is not one
of high, medium or low, yet ExceptionCard does not fall back to the medium
configuration for it — the bracket access hits the truthy inherited
Object.prototype value, the or-else fallback is skipped, and rendering
fails on the undefined icon. -/
theorem claim_C10_counterexample :
    (some "constructor" : Option String) ≠ some "high"
    ∧ (some "constructor" : Option String) ≠ some "medium"
    ∧ (some "constructor" : Option String) ≠ some "low"
    ∧ exceptionCardRender (some "constructor") ≠ some severityMedium
    ∧ exceptionCardRender (some "constructor") = none := by
  decide

/-- Claim C10, amended: an exception whose severity is not one of high,
medium or low and not an Object.prototype property name (including an
absent severity) renders with the medium severity configuration; the three
known severities map to their own configurations; and for an
Object.prototype property name the truthy inherited value skips the
fallback and rendering fails. -/
theorem claim_C10_severity_fallback :
    (∀ sev : Option String, sev ≠ some "high" → sev ≠ some "medium" → sev ≠ some "low" →
      (∀ k, sev = some k → k ∉ objectProtoKeys) →
      exceptionCardRender sev = some severityMedium)
    ∧ exceptionCardRender (some "high") = some severityHigh
    ∧ exceptionCardRender (some "medium") = some severityMedium
    ∧ exceptionCardRender (some "low") = some severityLow
    ∧ (∀ k ∈ objectProtoKeys, exceptionCardRender (some k) = none) := by
  refine ⟨?_, rfl, rfl, rfl, by decide⟩
  intro sev h1 h2 h3 hp
  cases sev with
  | none => rfl
  | some k =>
    have e1 : (("high" : String) == k) = false := by
      simp only [beq_eq_false_iff_ne, ne_eq]
      intro h
      exact h1 (by rw [h])
    have e2 : (("medium" : String) == k) = false := by
      simp only [beq_eq_false_iff_ne, ne_eq]
      intro h
      exact h2 (by rw [h])
    have e3 : (("low" : String) == k) = false := by
      simp only [beq_eq_false_iff_ne, ne_eq]
      intro h
      exact h3 (by rw [h])
    have hk : k ∉ objectProtoKeys := hp k rfl
    simp [exceptionCardRender, severityValue, severityLookup, isTruthy,
      SEVERITY_CONFIG, List.find?, e1, e2, e3, hk]

/-- Claim C9: for every totalPages at least 1 and currentPage between 1 and
totalPages, the page-item list of getPageNumbers has all numeric entries
within bounds and strictly increasing; when totalPages exceeds 5 it starts
with page 1 and ends with the last page; and ellipsis placeholders sit only
between numeric entries (never first, never last, never adjacent). -/
theorem claim_C9_pagination (cp tp : Int) (h1 : 1 ≤ tp) (h2 : 1 ≤ cp) (h3 : cp ≤ tp) :
    (∀ n : Int, PageItem.num n ∈ getPageNumbers cp tp → 1 ≤ n ∧ n ≤ tp)
    ∧ List.Chain' (fun a b => a < b) (pageNumbersOf (getPageNumbers cp tp))
    ∧ (5 < tp → (getPageNumbers cp tp).head? = some (PageItem.num 1)
        ∧ (getPageNumbers cp tp).getLast? = some (PageItem.num tp))
    ∧ (getPageNumbers cp tp).head? ≠ some PageItem.dots
    ∧ (getPageNumbers cp tp).getLast? ≠ some PageItem.dots
    ∧ List.Chain' (fun a b => a ≠ PageItem.dots ∨ b ≠ PageItem.dots)
        (getPageNumbers cp tp) := by
  by_cases h5 : tp ≤ 5
  · have e : getPageNumbers cp tp = (intRange 1 tp.toNat).map PageItem.num := by
      simp [getPageNumbers, h5]
    rw [e]
    refine ⟨?_, ?_, ?_, ?_, ?_, ?_⟩
    · intro n hn
      rw [List.mem_map] at hn
      obtain ⟨x, hx, hxn⟩ := hn
      cases hxn
      rw [mem_intRange] at hx
      omega
    · rw [pageNumbersOf_map_num]
      exact chain_lt_intRange _ _
    · intro h6; omega
    · rw [List.head?_map, intRange_headq tp.toNat 1 (by omega)]
      simp
    · rw [List.getLast?_map]
      cases h : (intRange 1 tp.toNat).getLast? <;> simp
    · rw [List.chain'_map]
      exact chain'_of_total (fun a b => Or.inl (by simp)) _
  · by_cases hc1 : cp ≤ 3
    · have hs : pageRangeStart cp tp = 2 := by
        unfold pageRangeStart
        rw [if_neg (by omega)]
        omega
      have he : pageRangeEnd cp tp = 4 := by
        unfold pageRangeEnd
        rw [if_pos hc1]
      have e : getPageNumbers cp tp
          = [PageItem.num 1, PageItem.num 2, PageItem.num 3, PageItem.num 4,
             PageItem.dots, PageItem.num tp] := by
        simp only [getPageNumbers]
        rw [if_neg h5, hs, he]
        rw [show ((4 : Int) - 2 + 1).toNat = 3 by decide]
        rw [if_neg (by omega : ¬ (2 : Int) < 2), if_pos (by omega : (4 : Int) < tp - 1)]
        norm_num [intRange]
      rw [e]
      refine ⟨?_, ?_, ?_, ?_, ?_, ?_⟩
      · intro n hn
        simp only [List.mem_cons, PageItem.num.injEq, List.not_mem_nil, or_false,
          reduceCtorEq, false_or] at hn
        rcases hn with h | h | h | h | h <;> omega
      · simp only [pageNumbersOf, List.filterMap]
        norm_num [List.chain'_cons]
        omega
      · exact fun _ => ⟨rfl, rfl⟩
      · simp
      · rw [show ([PageItem.num 1, PageItem.num 2, PageItem.num 3, PageItem.num 4,
          PageItem.dots, PageItem.num tp].getLast? = some (PageItem.num tp)) from rfl]
        simp
      · simp [List.chain'_cons]
    · by_cases hc2 : tp - 2 ≤ cp
      · have hs : pageRangeStart cp tp = tp - 3 := by
          unfold pageRangeStart
          rw [if_pos hc2]
        have he : pageRangeEnd cp tp = tp - 1 := by
          unfold pageRangeEnd
          rw [if_neg hc1]
          omega
        have e : getPageNumbers cp tp
            = [PageItem.num 1, PageItem.dots, PageItem.num (tp - 3),
               PageItem.num (tp - 3 + 1), PageItem.num (tp - 3 + 1 + 1),
               PageItem.num tp] := by
          simp only [getPageNumbers]
          rw [if_neg h5, hs, he]
          rw [show (tp - 1 - (tp - 3) + 1).toNat = 3 by omega]
          rw [if_pos (by omega : (2 : Int) < tp - 3),
            if_neg (by omega : ¬ tp - 1 < tp - 1)]
          norm_num [intRange]
        rw [e]
        refine ⟨?_, ?_, ?_, ?_, ?_, ?_⟩
        · intro n hn
          simp only [List.mem_cons, PageItem.num.injEq, List.not_mem_nil, or_false,
            reduceCtorEq, false_or] at hn
          rcases hn with h | h | h | h | h <;> omega
        · simp only [pageNumbersOf, List.filterMap]
          norm_num [List.chain'_cons]
          omega
        · exact fun _ => ⟨rfl, rfl⟩
        · simp
        · rw [show ([PageItem.num 1, PageItem.dots, PageItem.num (tp - 3),
            PageItem.num (tp - 3 + 1), PageItem.num (tp - 3 + 1 + 1),
            PageItem.num tp].getLast? = some (PageItem.num tp)) from rfl]
          simp
        · simp [List.chain'_cons]
      · have hs : pageRangeStart cp tp = cp - 1 := by
          unfold pageRangeStart
          rw [if_neg (by omega)]
          omega
        have he : pageRangeEnd cp tp = cp + 1 := by
          unfold pageRangeEnd
          rw [if_neg hc1]
          omega
        have e : getPageNumbers cp tp
            = [PageItem.num 1, PageItem.dots, PageItem.num (cp - 1),
               PageItem.num (cp - 1 + 1), PageItem.num (cp - 1 + 1 + 1),
               PageItem.dots, PageItem.num tp] := by
          simp only [getPageNumbers]
          rw [if_neg h5, hs, he]
          rw [show (cp + 1 - (cp - 1) + 1).toNat = 3 by omega]
          rw [if_pos (by omega : (2 : Int) < cp - 1),
            if_pos (by omega : cp + 1 < tp - 1)]
          norm_num [intRange]
        rw [e]
        refine ⟨?_, ?_, ?_, ?_, ?_, ?_⟩
        · intro n hn
          simp only [List.mem_cons, PageItem.num.injEq, List.not_mem_nil, or_false,
            reduceCtorEq, false_or] at hn
          rcases hn with h | h | h | h | h <;> omega
        · simp only [pageNumbersOf, List.filterMap]
          norm_num [List.chain'_cons]
          omega
        · exact fun _ => ⟨rfl, rfl⟩
        · simp
        · rw [show ([PageItem.num 1, PageItem.dots, PageItem.num (cp - 1),
            PageItem.num (cp - 1 + 1), PageItem.num (cp - 1 + 1 + 1),
            PageItem.dots, PageItem.num tp].getLast? = some (PageItem.num tp)) from rfl]
          simp
        · simp [List.chain'_cons]

/-- Witness for claim C9 at currentPage 4, totalPages 8. -/
theorem claim_C9_pagination_witness :
    (1 : Int) ≤ 8 ∧ (1 : Int) ≤ 4 ∧ (4 : Int) ≤ 8
    ∧ (∀ n : Int, PageItem.num n ∈ getPageNumbers 4 8 → 1 ≤ n ∧ n ≤ 8) := by
  refine ⟨by decide, by decide, by decide, ?_⟩
  exact (claim_C9_pagination 4 8 (by decide) (by decide) (by decide)).1

/-- Witness for claim C10 at the severity string critical, which is
neither a known severity nor an Object.prototype property name. -/
theorem claim_C10_severity_fallback_witness :
    exceptionCardRender (some "critical") = some severityMedium := by
  exact claim_C10_severity_fallback.1 (some "critical") (by decide) (by decide) (by decide)
    (by intro k hk; obtain rfl := Option.some.inj hk; decide)

end Ui

namespace Recon

theorem clamp01_nonneg (x : ℚ) : 0 ≤ clamp01 x := le_max_left 0 _

theorem clamp01_le_one (x : ℚ) : clamp01 x ≤ 1 :=
  max_le (by norm_num) (min_le_left 1 x)

theorem amountScore_nonneg (co : Config) (b a : Transaction) : 0 ≤ amountScore co b a := by
  unfold amountScore
  split_ifs
  · norm_num
  · norm_num
  · exact clamp01_nonneg _

theorem amountScore_le_one (co : Config) (b a : Transaction) : amountScore co b a ≤ 1 := by
  unfold amountScore
  split_ifs
  · norm_num
  · norm_num
  · exact clamp01_le_one _

theorem dateScore_nonneg (co : Config) (b a : Transaction) : 0 ≤ dateScore co b a :=
  clamp01_nonneg _

theorem dateScore_le_one (co : Config) (b a : Transaction) : dateScore co b a ≤ 1 :=
  clamp01_le_one _

theorem vendorSimilarity_nonneg (x y : Option String) : 0 ≤ vendorSimilarity x y := by
  unfold vendorSimilarity
  rcases x with _ | sx <;> rcases y with _ | sy <;> try norm_num
  split_ifs
  · norm_num
  · exact clamp01_nonneg _

theorem vendorSimilarity_le_one (x y : Option String) : vendorSimilarity x y ≤ 1 := by
  unfold vendorSimilarity
  rcases x with _ | sx <;> rcases y with _ | sy <;> try norm_num
  split_ifs
  · norm_num
  · exact clamp01_le_one _

theorem referenceScore_nonneg (b a : Transaction) : 0 ≤ referenceScore b a := by
  unfold referenceScore
  rcases b.checkNumber with _ | rb <;> rcases a.checkNumber with _ | ra <;> try norm_num
  split_ifs <;> norm_num

theorem referenceScore_le_one (b a : Transaction) : referenceScore b a ≤ 1 := by
  unfold referenceScore
  rcases b.checkNumber with _ | rb <;> rcases a.checkNumber with _ | ra <;> try norm_num
  split_ifs <;> norm_num

theorem fuzzyScore_nonneg (co : Config) (b a : Transaction) : 0 ≤ fuzzyScore co b a := by
  unfold fuzzyScore weightAmount weightDate weightVendor weightReference
  have h1 := amountScore_nonneg co b a
  have h2 := dateScore_nonneg co b a
  have h3 := vendorSimilarity_nonneg b.vendorName a.vendorName
  have h4 := referenceScore_nonneg b a
  nlinarith

theorem fuzzyScore_le_one (co : Config) (b a : Transaction) : fuzzyScore co b a ≤ 1 := by
  unfold fuzzyScore weightAmount weightDate weightVendor weightReference
  have h1 := amountScore_le_one co b a
  have h2 := dateScore_le_one co b a
  have h3 := vendorSimilarity_le_one b.vendorName a.vendorName
  have h4 := referenceScore_le_one b a
  nlinarith

theorem batchConfidence_nonneg (co : Config) (b : Transaction) (combo : List Transaction) :
    0 ≤ batchConfidence co b combo := by
  unfold batchConfidence
  split_ifs <;> exact clamp01_nonneg _

theorem batchConfidence_le_one (co : Config) (b : Transaction) (combo : List Transaction) :
    batchConfidence co b combo ≤ 1 := by
  unfold batchConfidence
  split_ifs <;> exact clamp01_le_one _

theorem adjustMatch_none (quotes : List (String × ℚ)) (banks aps : List Transaction)
    (m : Match) : adjustMatch none quotes banks aps m = m := rfl

theorem economicValidate_none (quotes : List (String × ℚ)) (banks aps : List Transaction)
    (ms : List Match) : economicValidate none quotes banks aps ms = ms := by
  show ms.map (fun m => m) = ms
  exact List.map_id' ms

theorem firstSome_all_none : ∀ l : List (Option MarketSnapshot),
    (∀ s ∈ l, s = none) → firstSome l = none := by
  intro l
  induction l with
  | nil => intro _; rfl
  | cons a rest ih =>
    intro h
    cases a with
    | some s => exact absurd (h (some s) (List.mem_cons_self _ _)) (by simp)
    | none => exact ih (fun s hs => h s (List.mem_cons_of_mem _ hs))

theorem fetchSnapshot_none {pd : ProviderData} {c : MarketCache}
    (hc : c.storedSnapshot = none) (hs : firstSome pd.snapshotSources = none) :
    fetchSnapshot pd c = (none, c) := by
  unfold fetchSnapshot
  rw [hc, hs]

/-- Claim C5: with no market snapshot the economic validator is the
identity on matches (confidence and flags unchanged), and a run in which
every snapshot source failed returns the unadjusted engine matches and an
unchanged cache, with no error surfaced (the pipeline is total). -/
theorem claim_C5_no_snapshot_identity :
    (∀ (quotes : List (String × ℚ)) (banks aps : List Transaction) (ms : List Match),
      economicValidate none quotes banks aps ms = ms)
    ∧ (∀ (co : Config) (pd : ProviderData) (c : MarketCache) (banks aps : List Transaction),
        (∀ s ∈ pd.snapshotSources, s = none) → c.storedSnapshot = none →
        (reconcile co pd c banks aps).1.matchList
            = initialMatches (matchingEngine co banks aps)
        ∧ (reconcile co pd c banks aps).2 = c) := by
  refine ⟨economicValidate_none, ?_⟩
  intro co pd c banks aps hsrc hc
  have hf : fetchSnapshot pd c = (none, c) :=
    fetchSnapshot_none hc (firstSome_all_none pd.snapshotSources hsrc)
  constructor
  · show (economicValidate (fetchSnapshot pd c).1 pd.quotes banks aps
      (initialMatches (matchingEngine co banks aps))) = _
    rw [hf]
    exact economicValidate_none _ _ _ _
  · show (fetchSnapshot pd c).2 = c
    rw [hf]

/-- Witness for claim C5 with a single failed snapshot source and a fresh
cache. -/
theorem claim_C5_no_snapshot_identity_witness :
    (reconcile defaultConfig { snapshotSources := [none], quotes := [] } emptyCache
        [wBank1] [wAp1]).1.matchList
      = initialMatches (matchingEngine defaultConfig [wBank1] [wAp1]) := by
  exact (claim_C5_no_snapshot_identity.2 defaultConfig
    { snapshotSources := [none], quotes := [] } emptyCache [wBank1] [wAp1]
    (by intro s hs; simpa using hs) rfl).1

/-- Claim C6: reconcile is deterministic; two runs on identical inputs,
each from a fresh empty cache, produce identical match lists and
identical exception lists. -/
theorem claim_C6_determinism (co : Config) (pd : ProviderData) (c1 c2 : MarketCache)
    (banks1 banks2 aps1 aps2 : List Transaction)
    (h1 : c1 = emptyCache) (h2 : c2 = emptyCache)
    (hb : banks1 = banks2) (ha : aps1 = aps2) :
    (reconcile co pd c1 banks1 aps1).1.matchList
        = (reconcile co pd c2 banks2 aps2).1.matchList
    ∧ (reconcile co pd c1 banks1 aps1).1.exceptions
        = (reconcile co pd c2 banks2 aps2).1.exceptions := by
  subst h1; subst h2; subst hb; subst ha
  exact ⟨rfl, rfl⟩

/-- Witness for claim C6 on a concrete run pair. -/
theorem claim_C6_determinism_witness :
    (reconcile defaultConfig { snapshotSources := [], quotes := [] } emptyCache
        [wBank1] [wAp1]).1.matchList
      = (reconcile defaultConfig { snapshotSources := [], quotes := [] } emptyCache
        [wBank1] [wAp1]).1.matchList := by
  exact (claim_C6_determinism defaultConfig { snapshotSources := [], quotes := [] }
    emptyCache emptyCache [wBank1] [wBank1] [wAp1] [wAp1] rfl rfl rfl rfl).1

theorem mem_exceptionsMissingAp {unB : List Transaction} {e : RecException}
    (h : e ∈ exceptionsMissingAp unB) :
    e.etype = ExceptionType.missingApRecord ∧ e.severity = Severity.medium := by
  simp only [exceptionsMissingAp, List.mem_map] at h
  obtain ⟨b, _, rfl⟩ := h
  exact ⟨rfl, rfl⟩

theorem mem_exceptionsDuplicate {unA : List Transaction} {e : RecException}
    (h : e ∈ exceptionsDuplicate unA) :
    e.etype = ExceptionType.duplicatePayment ∧ e.severity = Severity.high := by
  simp only [exceptionsDuplicate, List.mem_map] at h
  obtain ⟨p, _, rfl⟩ := h
  exact ⟨rfl, rfl⟩

theorem mem_exceptionsMissingBank {unA : List Transaction} {e : RecException}
    (h : e ∈ exceptionsMissingBank unA) :
    e.etype = ExceptionType.missingBankRecord ∧ e.severity = Severity.high := by
  simp only [exceptionsMissingBank, List.mem_map] at h
  obtain ⟨a, _, rfl⟩ := h
  exact ⟨rfl, rfl⟩

theorem mem_exceptionsAmountMismatch {co : Config} {ms : List MatchCandidate}
    {banks aps : List Transaction} {e : RecException}
    (h : e ∈ exceptionsAmountMismatch co ms banks aps) :
    e.etype = ExceptionType.amountMismatch ∧ e.severity = Severity.medium := by
  simp only [exceptionsAmountMismatch, List.mem_filterMap] at h
  obtain ⟨m, _, hf⟩ := h
  rcases h1 : findTx banks m.bankId with _ | b
  · rw [h1] at hf
    exact absurd hf (by simp)
  · rw [h1, Option.some_bind] at hf
    rcases h2 : m.apIds.head?.bind (findTx aps) with _ | a
    · rw [h2] at hf
      exact absurd hf (by simp)
    · rw [h2, Option.some_bind] at hf
      split_ifs at hf
      obtain rfl := Option.some.inj hf
      exact ⟨rfl, rfl⟩

theorem mem_exceptionsStaleCheck {ms : List MatchCandidate}
    {banks aps : List Transaction} {e : RecException}
    (h : e ∈ exceptionsStaleCheck ms banks aps) :
    e.etype = ExceptionType.staleCheck ∧ e.severity = Severity.low := by
  simp only [exceptionsStaleCheck, List.mem_filterMap] at h
  obtain ⟨m, _, hf⟩ := h
  rcases h1 : findTx banks m.bankId with _ | b
  · rw [h1] at hf
    exact absurd hf (by simp)
  · rw [h1, Option.some_bind] at hf
    rcases h2 : m.apIds.head?.bind (findTx aps) with _ | a
    · rw [h2] at hf
      exact absurd hf (by simp)
    · rw [h2, Option.some_bind] at hf
      split_ifs at hf
      obtain rfl := Option.some.inj hf
      exact ⟨rfl, rfl⟩

theorem detect_severity {co : Config} {ms : List MatchCandidate}
    {banks aps unB unA : List Transaction} {e : RecException}
    (h : e ∈ detectExceptions co ms banks aps unB unA) :
    e.severity = severityOf e.etype := by
  simp only [detectExceptions, List.mem_append, or_assoc] at h
  rcases h with h | h | h | h | h
  · obtain ⟨ht, hs⟩ := mem_exceptionsMissingAp h
    rw [hs, ht]
    rfl
  · obtain ⟨ht, hs⟩ := mem_exceptionsDuplicate h
    rw [hs, ht]
    rfl
  · obtain ⟨ht, hs⟩ := mem_exceptionsMissingBank h
    rw [hs, ht]
    rfl
  · obtain ⟨ht, hs⟩ := mem_exceptionsAmountMismatch h
    rw [hs, ht]
    rfl
  · obtain ⟨ht, hs⟩ := mem_exceptionsStaleCheck h
    rw [hs, ht]
    rfl

/-- Claim C7: every produced exception carries a type from the fixed
five-member taxonomy and exactly the fixed severity of its type:
missing AP record and amount mismatch are medium, missing bank record and
duplicate payment are high, stale check is low. -/
theorem claim_C7_taxonomy (co : Config) (ms : List MatchCandidate)
    (banks aps unB unA : List Transaction) :
    (∀ e ∈ detectExceptions co ms banks aps unB unA,
      e.severity = severityOf e.etype
      ∧ (e.etype = ExceptionType.missingApRecord
          ∨ e.etype = ExceptionType.missingBankRecord
          ∨ e.etype = ExceptionType.duplicatePayment
          ∨ e.etype = ExceptionType.amountMismatch
          ∨ e.etype = ExceptionType.staleCheck))
    ∧ severityOf ExceptionType.missingApRecord = Severity.medium
    ∧ severityOf ExceptionType.missingBankRecord = Severity.high
    ∧ severityOf ExceptionType.duplicatePayment = Severity.high
    ∧ severityOf ExceptionType.amountMismatch = Severity.medium
    ∧ severityOf ExceptionType.staleCheck = Severity.low := by
  refine ⟨?_, rfl, rfl, rfl, rfl, rfl⟩
  intro e he
  refine ⟨detect_severity he, ?_⟩
  cases h : e.etype <;> simp

theorem scanMatch_nil (pick : Transaction → List Transaction → Option (List Transaction))
    (mk : Transaction → List Transaction → MatchCandidate) (aps : List Transaction) :
    scanMatch pick mk [] aps = ([], [], aps) := rfl

theorem scanMatch_cons_some {pick : Transaction → List Transaction → Option (List Transaction)}
    {mk : Transaction → List Transaction → MatchCandidate}
    {b : Transaction} {bs aps combo : List Transaction} (hp : pick b aps = some combo) :
    scanMatch pick mk (b :: bs) aps =
      (mk b combo :: (scanMatch pick mk bs (removeCombo combo aps)).1,
        (scanMatch pick mk bs (removeCombo combo aps)).2.1,
        (scanMatch pick mk bs (removeCombo combo aps)).2.2) := by
  simp [scanMatch, hp]

theorem scanMatch_cons_none {pick : Transaction → List Transaction → Option (List Transaction)}
    {mk : Transaction → List Transaction → MatchCandidate}
    {b : Transaction} {bs aps : List Transaction} (hp : pick b aps = none) :
    scanMatch pick mk (b :: bs) aps =
      ((scanMatch pick mk bs aps).1,
        b :: (scanMatch pick mk bs aps).2.1,
        (scanMatch pick mk bs aps).2.2) := by
  simp [scanMatch, hp]

theorem removeCombo_sublist (combo pool : List Transaction) :
    List.Sublist (removeCombo combo pool) pool :=
  List.filter_sublist _

theorem mem_removeCombo {combo pool : List Transaction} {a : Transaction}
    (h : a ∈ removeCombo combo pool) :
    a ∈ pool ∧ a.tid ∉ combo.map (fun t => t.tid) := by
  rw [removeCombo, List.mem_filter] at h
  refine ⟨h.1, ?_⟩
  have h2 := h.2
  simp at h2
  intro hmem
  obtain ⟨t, ht, htid⟩ := List.mem_map.mp hmem
  exact h2 t ht htid

theorem scanMatch_bankIds_sublist
    (pick : Transaction → List Transaction → Option (List Transaction))
    (mk : Transaction → List Transaction → MatchCandidate)
    (hmk : ∀ b combo, (mk b combo).bankId = b.tid) :
    ∀ (bs aps : List Transaction),
      List.Sublist ((scanMatch pick mk bs aps).1.map (fun m => m.bankId)) (idsOf bs) := by
  intro bs
  induction bs with
  | nil => intro aps; simp [scanMatch_nil, idsOf]
  | cons b bs ih =>
    intro aps
    cases hp : pick b aps with
    | some combo =>
      rw [scanMatch_cons_some hp]
      simp only [List.map_cons, hmk]
      exact List.Sublist.cons₂ _ (ih _)
    | none =>
      rw [scanMatch_cons_none hp]
      exact List.Sublist.cons _ (ih _)

theorem scanMatch_unmatchedBank_sublist
    (pick : Transaction → List Transaction → Option (List Transaction))
    (mk : Transaction → List Transaction → MatchCandidate) :
    ∀ (bs aps : List Transaction),
      List.Sublist (scanMatch pick mk bs aps).2.1 bs := by
  intro bs
  induction bs with
  | nil => intro aps; simp [scanMatch_nil]
  | cons b bs ih =>
    intro aps
    cases hp : pick b aps with
    | some combo =>
      rw [scanMatch_cons_some hp]
      exact List.Sublist.cons _ (ih _)
    | none =>
      rw [scanMatch_cons_none hp]
      exact List.Sublist.cons₂ _ (ih _)

theorem scanMatch_apPool_sublist
    (pick : Transaction → List Transaction → Option (List Transaction))
    (mk : Transaction → List Transaction → MatchCandidate) :
    ∀ (bs aps : List Transaction),
      List.Sublist (scanMatch pick mk bs aps).2.2 aps := by
  intro bs
  induction bs with
  | nil => intro aps; simp [scanMatch_nil]
  | cons b bs ih =>
    intro aps
    cases hp : pick b aps with
    | some combo =>
      rw [scanMatch_cons_some hp]
      exact (ih _).trans (removeCombo_sublist _ _)
    | none =>
      rw [scanMatch_cons_none hp]
      exact ih _

theorem scanMatch_sound
    (pick : Transaction → List Transaction → Option (List Transaction))
    (mk : Transaction → List Transaction → MatchCandidate) :
    ∀ (bs aps : List Transaction), ∀ m ∈ (scanMatch pick mk bs aps).1,
      ∃ b pool combo, b ∈ bs ∧ List.Sublist pool aps ∧ pick b pool = some combo
        ∧ m = mk b combo := by
  intro bs
  induction bs with
  | nil => intro aps m hm; simp [scanMatch_nil] at hm
  | cons b bs ih =>
    intro aps m hm
    cases hp : pick b aps with
    | some combo =>
      rw [scanMatch_cons_some hp] at hm
      rcases List.mem_cons.mp hm with rfl | hm'
      · exact ⟨b, aps, combo, List.mem_cons_self _ _, List.Sublist.refl _, hp, rfl⟩
      · obtain ⟨b', pool', combo', hb', hpool', hp', rfl⟩ := ih _ m hm'
        exact ⟨b', pool', combo', List.mem_cons_of_mem _ hb',
          hpool'.trans (removeCombo_sublist _ _), hp', rfl⟩
    | none =>
      rw [scanMatch_cons_none hp] at hm
      obtain ⟨b', pool', combo', hb', hpool', hp', rfl⟩ := ih _ m hm
      exact ⟨b', pool', combo', List.mem_cons_of_mem _ hb', hpool', hp', rfl⟩

theorem scanMatch_bank_disjoint
    (pick : Transaction → List Transaction → Option (List Transaction))
    (mk : Transaction → List Transaction → MatchCandidate)
    (hmk : ∀ b combo, (mk b combo).bankId = b.tid) :
    ∀ (bs aps : List Transaction), (idsOf bs).Nodup →
      ∀ i ∈ (scanMatch pick mk bs aps).1.map (fun m => m.bankId),
        i ∉ idsOf (scanMatch pick mk bs aps).2.1 := by
  intro bs
  induction bs with
  | nil => intro aps _ i hi; simp [scanMatch_nil] at hi
  | cons b bs ih =>
    intro aps hnd i hi
    have hnd' : (idsOf bs).Nodup := (List.nodup_cons.mp hnd).2
    have hbtid : b.tid ∉ idsOf bs := (List.nodup_cons.mp hnd).1
    cases hp : pick b aps with
    | some combo =>
      rw [scanMatch_cons_some hp] at hi ⊢
      simp only [List.map_cons, hmk, List.mem_cons] at hi
      rcases hi with rfl | hi'
      · intro hmem
        exact hbtid (((scanMatch_unmatchedBank_sublist pick mk bs
          (removeCombo combo aps)).map (fun t => t.tid)).subset hmem)
      · exact ih _ hnd' i hi'
    | none =>
      rw [scanMatch_cons_none hp] at hi ⊢
      intro hmem
      rcases List.mem_cons.mp hmem with he | hmem'
      · have : i ∈ idsOf bs :=
          ((scanMatch_bankIds_sublist pick mk hmk bs aps).subset hi)
        rw [he] at this
        exact hbtid this
      · exact ih _ hnd' i hi hmem'

theorem scanMatch_apIds_mem
    (pick : Transaction → List Transaction → Option (List Transaction))
    (mk : Transaction → List Transaction → MatchCandidate)
    (hpick : ∀ b pool combo, pick b pool = some combo → List.Sublist combo pool)
    (hmk : ∀ b combo, (mk b combo).apIds = combo.map (fun t => t.tid)) :
    ∀ (bs aps : List Transaction), ∀ m ∈ (scanMatch pick mk bs aps).1,
      ∀ i ∈ m.apIds, i ∈ idsOf aps := by
  intro bs aps m hm i hi
  obtain ⟨b, pool, combo, _, hpool, hp, rfl⟩ := scanMatch_sound pick mk bs aps m hm
  rw [hmk] at hi
  obtain ⟨t, ht, rfl⟩ := List.mem_map.mp hi
  exact List.mem_map.mpr ⟨t, hpool.subset ((hpick b pool combo hp).subset ht), rfl⟩

theorem idsOf_sublist {ts us : List Transaction} (h : List.Sublist ts us) :
    List.Sublist (idsOf ts) (idsOf us) := h.map _

theorem mem_idsOf {ts : List Transaction} {i : String} :
    i ∈ idsOf ts ↔ ∃ t ∈ ts, i = t.tid := by
  simp [idsOf, eq_comm]

theorem scanMatch_ap_nodup_disjoint
    (pick : Transaction → List Transaction → Option (List Transaction))
    (mk : Transaction → List Transaction → MatchCandidate)
    (hpick : ∀ b pool combo, pick b pool = some combo → List.Sublist combo pool)
    (hmk : ∀ b combo, (mk b combo).apIds = combo.map (fun t => t.tid)) :
    ∀ (bs aps : List Transaction), (idsOf aps).Nodup →
      ((scanMatch pick mk bs aps).1.flatMap (fun m => m.apIds)).Nodup
      ∧ ∀ i ∈ (scanMatch pick mk bs aps).1.flatMap (fun m => m.apIds),
          i ∉ idsOf (scanMatch pick mk bs aps).2.2 := by
  intro bs
  induction bs with
  | nil => intro aps hnd; simp [scanMatch_nil]
  | cons b bs ih =>
    intro aps hnd
    cases hp : pick b aps with
    | some combo =>
      rw [scanMatch_cons_some hp]
      simp only [List.flatMap_cons, hmk]
      have hsub : List.Sublist combo aps := hpick b aps combo hp
      have hcnodup : (combo.map (fun t => t.tid)).Nodup := hnd.sublist (hsub.map _)
      have hpool' : (idsOf (removeCombo combo aps)).Nodup :=
        hnd.sublist (idsOf_sublist (removeCombo_sublist _ _))
      obtain ⟨hnodup', hdisj'⟩ := ih (removeCombo combo aps) hpool'
      have hrest_mem : ∀ i ∈ (scanMatch pick mk bs (removeCombo combo aps)).1.flatMap
          (fun m => m.apIds), i ∈ idsOf (removeCombo combo aps) := by
        intro i hi
        obtain ⟨m, hm, him⟩ := List.mem_flatMap.mp hi
        exact scanMatch_apIds_mem pick mk hpick hmk bs (removeCombo combo aps) m hm i him
      have hpool_not_combo : ∀ i ∈ idsOf (removeCombo combo aps),
          i ∉ combo.map (fun t => t.tid) := by
        intro i hi
        obtain ⟨t, ht, rfl⟩ := mem_idsOf.mp hi
        exact (mem_removeCombo ht).2
      constructor
      · rw [List.nodup_append]
        refine ⟨hcnodup, hnodup', ?_⟩
        intro i hic hirest
        exact hpool_not_combo i (hrest_mem i hirest) hic
      · intro i hi hipool
        have hpoolsub : ∀ j ∈ idsOf (scanMatch pick mk bs (removeCombo combo aps)).2.2,
            j ∈ idsOf (removeCombo combo aps) :=
          fun j hj => (idsOf_sublist (scanMatch_apPool_sublist pick mk bs
            (removeCombo combo aps))).subset hj
        rcases List.mem_append.mp hi with hic | hirest
        · exact hpool_not_combo i (hpoolsub i hipool) hic
        · exact hdisj' i hirest hipool
    | none =>
      rw [scanMatch_cons_none hp]
      exact ih aps hnd

theorem findExact_mem {b : Transaction} :
    ∀ {ts : List Transaction} {a : Transaction}, findExact b ts = some a →
      a ∈ ts ∧ exactPair b a = true := by
  intro ts
  induction ts with
  | nil => intro a h; simp [findExact] at h
  | cons x rest ih =>
    intro a h
    rw [findExact] at h
    split_ifs at h with hx
    · obtain rfl := Option.some.inj h
      exact ⟨List.mem_cons_self _ _, hx⟩
    · obtain ⟨hm, hpair⟩ := ih h
      exact ⟨List.mem_cons_of_mem _ hm, hpair⟩

theorem findExact_none {b : Transaction} :
    ∀ {ts : List Transaction}, findExact b ts = none →
      ∀ a ∈ ts, exactPair b a = false := by
  intro ts
  induction ts with
  | nil => intro _ a ha; simp at ha
  | cons x rest ih =>
    intro h a ha
    rw [findExact] at h
    split_ifs at h with hx
    rcases List.mem_cons.mp ha with rfl | ha'
    · cases hb : exactPair b a with
      | false => rfl
      | true => exact absurd hb hx
    · exact ih h a ha'

theorem pass1Pick_sub : ∀ (b : Transaction) (pool combo : List Transaction),
    pass1Pick b pool = some combo → List.Sublist combo pool := by
  intro b pool combo hp
  unfold pass1Pick at hp
  obtain ⟨a, hfe, rfl⟩ := Option.map_eq_some'.mp hp
  exact List.singleton_sublist.mpr (findExact_mem hfe).1

theorem pass1_unmatched_no_exact : ∀ (banks aps : List Transaction),
    ∀ b ∈ (pass1 banks aps).2.1, ∀ a ∈ (pass1 banks aps).2.2,
      exactPair b a = false := by
  intro banks
  induction banks with
  | nil => intro aps b hb; simp [pass1, scanMatch_nil] at hb
  | cons b0 bs ih =>
    intro aps b hb a ha
    unfold pass1 at hb ha
    cases hp : pass1Pick b0 aps with
    | some combo =>
      rw [scanMatch_cons_some hp] at hb ha
      exact ih (removeCombo combo aps) b hb a ha
    | none =>
      rw [scanMatch_cons_none hp] at hb ha
      rcases List.mem_cons.mp hb with rfl | hb'
      · have hfe : findExact b aps = none := by
          unfold pass1Pick at hp
          exact Option.map_eq_none'.mp hp
        have hmem : a ∈ aps :=
          (scanMatch_apPool_sublist pass1Pick pass1Mk bs aps).subset ha
        exact findExact_none hfe a hmem
      · exact ih aps b hb' a ha

/-- Claim C3: pass 1 pairs a bank transaction with an AP transaction
exactly when the check numbers match exactly and the amounts are equal at
minor-unit precision; every pass-1 match has raw score 1 and match type
exact, and a bank transaction left unmatched by pass 1 has no exactly
pairing AP transaction in the remaining pool. -/
theorem claim_C3_pass1_exact (banks aps : List Transaction) :
    (∀ m ∈ (pass1 banks aps).1,
      m.matchType = MatchType.exact ∧ m.rawScore = 1
      ∧ ∃ b a, b ∈ banks ∧ a ∈ aps ∧ m.bankId = b.tid ∧ m.apIds = [a.tid]
          ∧ exactPair b a = true)
    ∧ (∀ b ∈ (pass1 banks aps).2.1, ∀ a ∈ (pass1 banks aps).2.2,
        exactPair b a = false)
    ∧ (∀ b a : Transaction, exactPair b a = true ↔
        ((∃ cb, b.checkNumber = some cb ∧ a.checkNumber = some cb)
          ∧ b.amountCents.natAbs = a.amountCents.natAbs)) := by
  refine ⟨?_, pass1_unmatched_no_exact banks aps, ?_⟩
  · intro m hm
    obtain ⟨b, pool, combo, hb, hpool, hp, rfl⟩ :=
      scanMatch_sound pass1Pick pass1Mk banks aps m hm
    unfold pass1Pick at hp
    obtain ⟨a, hfe, rfl⟩ := Option.map_eq_some'.mp hp
    obtain ⟨ham, hpair⟩ := findExact_mem hfe
    exact ⟨rfl, rfl, b, a, hb, hpool.subset ham, rfl, rfl, hpair⟩
  · intro b a
    unfold exactPair
    rcases hcb : b.checkNumber with _ | cb <;> rcases hca : a.checkNumber with _ | ca <;>
      simp [Bool.and_eq_true, beq_iff_eq]
    exact fun _ => eq_comm

/-- Witness for claim C3 on the exact pair wBank1/wAp1. -/
theorem claim_C3_pass1_exact_witness :
    (pass1Mk wBank1 [wAp1]).matchType = MatchType.exact
    ∧ (pass1Mk wBank1 [wAp1]).rawScore = 1 := by
  have h := (claim_C3_pass1_exact [wBank1] [wAp1]).1 (pass1Mk wBank1 [wAp1]) (by decide)
  exact ⟨h.1, h.2.1⟩

theorem preferred_irrefl (c : Cand) : ¬ Preferred c c := by
  simp [Preferred]

theorem preferred_trans {c d e : Cand} (h1 : Preferred c d) (h2 : Preferred d e) :
    Preferred c e := by
  rcases h1 with hs1 | ⟨hq1, ha1 | ⟨hae1, hd1⟩⟩ <;>
    rcases h2 with hs2 | ⟨hq2, ha2 | ⟨hae2, hd2⟩⟩ <;>
    first
      | exact Or.inl (by linarith)
      | exact Or.inr ⟨by linarith, Or.inl (by linarith)⟩
      | exact Or.inr ⟨by linarith, Or.inr ⟨by linarith, by omega⟩⟩

theorem preferred_negtrans {b c r : Cand} (hn : ¬ Preferred c b) (h : Preferred c r) :
    Preferred b r := by
  rw [Preferred] at hn
  push_neg at hn
  obtain ⟨hns, hrest⟩ := hn
  rcases eq_or_lt_of_le hns with heq | hlt
  · obtain ⟨hab, hdd⟩ := hrest heq
    rcases h with hs | ⟨hq, hac | ⟨haeq, hdc⟩⟩
    · exact Or.inl (by linarith)
    · exact Or.inr ⟨by linarith, Or.inl (by linarith)⟩
    · rcases eq_or_lt_of_le hab with haeq2 | halt2
      · have hdb := hdd haeq2.symm
        exact Or.inr ⟨by linarith, Or.inr ⟨by linarith, by omega⟩⟩
      · exact Or.inr ⟨by linarith, Or.inl (by linarith)⟩
  · rcases h with hs | ⟨hq, _⟩
    · exact Or.inl (by linarith)
    · exact Or.inl (by linarith)

theorem selectBest_spec : ∀ (cs : List Cand) (best : Cand),
    selectBest best cs ∈ best :: cs
    ∧ ∀ d ∈ best :: cs, ¬ Preferred d (selectBest best cs) := by
  intro cs
  induction cs with
  | nil =>
    intro best
    refine ⟨List.mem_cons_self _ _, ?_⟩
    intro d hd
    rcases List.mem_cons.mp hd with rfl | hd'
    · exact preferred_irrefl _
    · simp at hd'
  | cons c cs ih =>
    intro best
    rw [show selectBest best (c :: cs)
      = selectBest (if candBetter c best then c else best) cs from rfl]
    by_cases h : candBetter c best = true
    · rw [if_pos h]
      obtain ⟨hmem, hopt⟩ := ih c
      have hcb : Preferred c best := of_decide_eq_true h
      refine ⟨List.mem_cons_of_mem _ hmem, ?_⟩
      intro d hd
      rcases List.mem_cons.mp hd with rfl | hd'
      · intro hbr
        exact hopt c (List.mem_cons_self _ _) (preferred_trans hcb hbr)
      · exact hopt d hd'
    · rw [if_neg h]
      obtain ⟨hmem, hopt⟩ := ih best
      have hncb : ¬ Preferred c best := fun hp => h (decide_eq_true hp)
      constructor
      · rcases List.mem_cons.mp hmem with h' | h'
        · rw [h']
          exact List.mem_cons_self _ _
        · exact List.mem_cons_of_mem _ (List.mem_cons_of_mem _ h')
      · intro d hd
        rcases List.mem_cons.mp hd with rfl | hd'
        · exact hopt d (List.mem_cons_self _ _)
        · rcases List.mem_cons.mp hd' with rfl | hd''
          · intro hcr
            exact hopt best (List.mem_cons_self _ _) (preferred_negtrans hncb hcr)
          · exact hopt d (List.mem_cons_of_mem _ hd'')

theorem bestCandidate_spec {cands : List Cand} {c : Cand}
    (h : bestCandidate cands = some c) :
    c ∈ cands ∧ ∀ d ∈ cands, ¬ Preferred d c := by
  cases cands with
  | nil => exact absurd h (by simp [bestCandidate])
  | cons x xs =>
    obtain rfl := Option.some.inj h
    exact selectBest_spec xs x

theorem mem_pass2Candidates {co : Config} {b : Transaction} {aps : List Transaction}
    {c : Cand} :
    c ∈ pass2Candidates co b aps ↔
      (∃ a ∈ aps, c = mkCand co b a) ∧ co.fuzzyMatchThreshold ≤ 100 * c.score := by
  rw [pass2Candidates, List.mem_filter]
  constructor
  · rintro ⟨hmem, hpred⟩
    obtain ⟨a, ha, rfl⟩ := List.mem_map.mp hmem
    exact ⟨⟨a, ha, rfl⟩, of_decide_eq_true hpred⟩
  · rintro ⟨⟨a, ha, rfl⟩, hth⟩
    exact ⟨List.mem_map.mpr ⟨a, ha, rfl⟩, decide_eq_true hth⟩

/-- Claim C4: pass-2 scoring is the weighted sum of the four factors with
weights 0.40, 0.25, 0.25 and 0.10 summing to 1; candidates below the
fuzzy-match-threshold are discarded; and the selected candidate for a bank
transaction is an eligible candidate that no other eligible candidate
strictly beats under the order higher score first, then smaller absolute
amount difference, then earlier AP date. -/
theorem claim_C4_fuzzy_selection (co : Config) (b : Transaction) (aps : List Transaction)
    (c : Cand) (hc : bestCandidate (pass2Candidates co b aps) = some c) :
    c ∈ pass2Candidates co b aps
    ∧ co.fuzzyMatchThreshold ≤ 100 * c.score
    ∧ (∀ d ∈ pass2Candidates co b aps, ¬ Preferred d c)
    ∧ (∀ a ∈ aps, (mkCand co b a ∈ pass2Candidates co b aps
        ↔ co.fuzzyMatchThreshold ≤ 100 * fuzzyScore co b a))
    ∧ c.score = fuzzyScore co c.bank c.ap
    ∧ weightAmount + weightDate + weightVendor + weightReference = 1
    ∧ (∀ b' a' : Transaction, fuzzyScore co b' a'
        = weightAmount * amountScore co b' a' + weightDate * dateScore co b' a'
          + weightVendor * vendorSimilarity b'.vendorName a'.vendorName
          + weightReference * referenceScore b' a') := by
  obtain ⟨hmem, hopt⟩ := bestCandidate_spec hc
  obtain ⟨⟨a, ha, rfl⟩, hth⟩ := mem_pass2Candidates.mp hmem
  refine ⟨hmem, hth, hopt, ?_, rfl, by norm_num [weightAmount, weightDate,
    weightVendor, weightReference], fun _ _ => rfl⟩
  intro a' ha'
  rw [mem_pass2Candidates]
  constructor
  · rintro ⟨_, hth'⟩
    exact hth'
  · intro hth'
    exact ⟨⟨a', ha', rfl⟩, hth'⟩

/-- Witness for claim C4 at a concrete eligible candidate. -/
theorem claim_C4_fuzzy_selection_witness :
    mkCand wConfig wBank2 wAp2 ∈ pass2Candidates wConfig wBank2 [wAp2] := by
  have hsc : fuzzyScore wConfig wBank2 wAp2 = 13 / 20 := by
    norm_num [fuzzyScore, amountScore, dateScore, vendorSimilarity, referenceScore,
      mag, clamp01, weightAmount, weightDate, weightVendor, weightReference,
      wBank2, wAp2, wConfig]
  have h1 : pass2Candidates wConfig wBank2 [wAp2] = [mkCand wConfig wBank2 wAp2] := by
    rw [pass2Candidates]
    rw [show ([wAp2].map (mkCand wConfig wBank2)) = [mkCand wConfig wBank2 wAp2] from rfl]
    rw [List.filter_cons]
    rw [show (decide (wConfig.fuzzyMatchThreshold
        ≤ 100 * (mkCand wConfig wBank2 wAp2).score)) = true from ?_]
    · rfl
    · rw [decide_eq_true_iff]
      show wConfig.fuzzyMatchThreshold ≤ 100 * fuzzyScore wConfig wBank2 wAp2
      rw [hsc]
      norm_num [wConfig]
  have hbc : bestCandidate (pass2Candidates wConfig wBank2 [wAp2])
      = some (mkCand wConfig wBank2 wAp2) := by
    rw [h1]
    rfl
  exact (claim_C4_fuzzy_selection wConfig wBank2 [wAp2] _ hbc).1

theorem mem_allCandidates {co : Config} {banks aps : List Transaction} {c : Cand} :
    c ∈ allCandidates co banks aps ↔ ∃ b ∈ banks, c ∈ pass2Candidates co b aps := by
  simp [allCandidates]

theorem allCandidates_fields {co : Config} {banks aps : List Transaction} {c : Cand}
    (h : c ∈ allCandidates co banks aps) :
    c.bank ∈ banks ∧ c.ap ∈ aps ∧ c.score = fuzzyScore co c.bank c.ap := by
  obtain ⟨b, hb, hc⟩ := mem_allCandidates.mp h
  obtain ⟨⟨a, ha, rfl⟩, _⟩ := mem_pass2Candidates.mp hc
  exact ⟨hb, ha, rfl⟩

theorem mem_pass2Filter {cands : List Cand} {c d : Cand}
    (h : d ∈ cands.filter (fun d =>
      !(d.bank.tid == c.bank.tid) && !(d.ap.tid == c.ap.tid))) :
    d ∈ cands ∧ d.bank.tid ≠ c.bank.tid ∧ d.ap.tid ≠ c.ap.tid := by
  rw [List.mem_filter] at h
  have h2 := h.2
  simp at h2
  exact ⟨h.1, h2⟩

theorem pass2Assign_sound : ∀ (fuel : Nat) (cands : List Cand),
    ∀ m ∈ pass2Assign fuel cands, ∃ c ∈ cands,
      m.bankId = c.bank.tid ∧ m.apIds = [c.ap.tid] ∧ m.rawScore = c.score
        ∧ m.matchType = MatchType.fuzzy := by
  intro fuel
  induction fuel with
  | zero => intro cands m hm; simp [pass2Assign] at hm
  | succ fuel ih =>
    intro cands m hm
    cases hb : bestCandidate cands with
    | none => rw [pass2Assign, hb] at hm; simp at hm
    | some c =>
      rw [pass2Assign, hb] at hm
      rcases List.mem_cons.mp hm with rfl | hm'
      · exact ⟨c, (bestCandidate_spec hb).1, rfl, rfl, rfl, rfl⟩
      · obtain ⟨c', hc', h1, h2, h3, h4⟩ := ih _ m hm'
        exact ⟨c', (mem_pass2Filter hc').1, h1, h2, h3, h4⟩

theorem pass2Assign_bank_nodup : ∀ (fuel : Nat) (cands : List Cand),
    ((pass2Assign fuel cands).map (fun m => m.bankId)).Nodup := by
  intro fuel
  induction fuel with
  | zero => intro cands; simp [pass2Assign]
  | succ fuel ih =>
    intro cands
    cases hb : bestCandidate cands with
    | none => rw [pass2Assign, hb]; simp
    | some c =>
      rw [pass2Assign, hb]
      simp only [List.map_cons]
      rw [List.nodup_cons]
      refine ⟨?_, ih _⟩
      intro hmem
      obtain ⟨m, hm, hmid⟩ := List.mem_map.mp hmem
      obtain ⟨c', hc', h1, _, _, _⟩ := pass2Assign_sound _ _ m hm
      exact (mem_pass2Filter hc').2.1 (by rw [← h1, hmid])

theorem pass2Assign_ap_nodup : ∀ (fuel : Nat) (cands : List Cand),
    ((pass2Assign fuel cands).flatMap (fun m => m.apIds)).Nodup := by
  intro fuel
  induction fuel with
  | zero => intro cands; simp [pass2Assign]
  | succ fuel ih =>
    intro cands
    cases hb : bestCandidate cands with
    | none => rw [pass2Assign, hb]; simp
    | some c =>
      rw [pass2Assign, hb]
      simp only [List.flatMap_cons]
      rw [List.nodup_append]
      refine ⟨by simp, ih _, ?_⟩
      intro i hi hmem
      simp only [List.mem_singleton] at hi
      obtain ⟨m, hm, hmid⟩ := List.mem_flatMap.mp hmem
      obtain ⟨c', hc', _, h2, _, _⟩ := pass2Assign_sound _ _ m hm
      rw [h2, List.mem_singleton] at hmid
      exact (mem_pass2Filter hc').2.2 (by rw [← hmid, hi])

theorem pass2_matches_eq (co : Config) (banks aps : List Transaction) :
    (pass2 co banks aps).1
      = pass2Assign (allCandidates co banks aps).length (allCandidates co banks aps) := rfl

theorem pass2_sound {co : Config} {banks aps : List Transaction} :
    ∀ m ∈ (pass2 co banks aps).1,
      m.bankId ∈ idsOf banks ∧ (∀ i ∈ m.apIds, i ∈ idsOf aps)
      ∧ m.matchType = MatchType.fuzzy
      ∧ ∃ b a, b ∈ banks ∧ a ∈ aps ∧ m.rawScore = fuzzyScore co b a := by
  intro m hm
  rw [pass2_matches_eq] at hm
  obtain ⟨c, hc, h1, h2, h3, h4⟩ := pass2Assign_sound _ _ m hm
  obtain ⟨hbm, ham, hsc⟩ := allCandidates_fields hc
  refine ⟨?_, ?_, h4, c.bank, c.ap, hbm, ham, by rw [h3, hsc]⟩
  · rw [h1]
    exact mem_idsOf.mpr ⟨c.bank, hbm, rfl⟩
  · intro i hi
    rw [h2, List.mem_singleton] at hi
    rw [hi]
    exact mem_idsOf.mpr ⟨c.ap, ham, rfl⟩

theorem pass2_bank_nodup (co : Config) (banks aps : List Transaction) :
    ((pass2 co banks aps).1.map (fun m => m.bankId)).Nodup := by
  rw [pass2_matches_eq]
  exact pass2Assign_bank_nodup _ _

theorem pass2_ap_nodup (co : Config) (banks aps : List Transaction) :
    ((pass2 co banks aps).1.flatMap (fun m => m.apIds)).Nodup := by
  rw [pass2_matches_eq]
  exact pass2Assign_ap_nodup _ _

theorem pass2_residue_bank {co : Config} {banks aps : List Transaction} :
    ∀ t ∈ (pass2 co banks aps).2.1,
      t ∈ banks ∧ t.tid ∉ (pass2 co banks aps).1.map (fun m => m.bankId) := by
  intro t ht
  have ht' : t ∈ banks.filter (fun b =>
      !(((pass2 co banks aps).1.map (fun m => m.bankId)).contains b.tid)) := ht
  rw [List.mem_filter] at ht'
  have h2 := ht'.2
  simp at h2
  refine ⟨ht'.1, ?_⟩
  intro hmem
  obtain ⟨m, hm, hmid⟩ := List.mem_map.mp hmem
  exact h2 m hm hmid

theorem pass2_residue_ap {co : Config} {banks aps : List Transaction} :
    ∀ t ∈ (pass2 co banks aps).2.2,
      t ∈ aps ∧ t.tid ∉ (pass2 co banks aps).1.flatMap (fun m => m.apIds) := by
  intro t ht
  have ht' : t ∈ aps.filter (fun a =>
      !(((pass2 co banks aps).1.flatMap (fun m => m.apIds)).contains a.tid)) := ht
  rw [List.mem_filter] at ht'
  have h2 := ht'.2
  simp at h2
  refine ⟨ht'.1, ?_⟩
  intro hmem
  obtain ⟨m, hm, hmid⟩ := List.mem_flatMap.mp hmem
  exact h2 m hm hmid

theorem pass2_residue_bank_sublist (co : Config) (banks aps : List Transaction) :
    List.Sublist (pass2 co banks aps).2.1 banks := List.filter_sublist _

theorem pass2_residue_ap_sublist (co : Config) (banks aps : List Transaction) :
    List.Sublist (pass2 co banks aps).2.2 aps := List.filter_sublist _

theorem subseqs_sublist : ∀ {ts l : List Transaction}, l ∈ subseqs ts →
    List.Sublist l ts := by
  intro ts
  induction ts with
  | nil =>
    intro l hl
    simp only [subseqs, List.mem_singleton] at hl
    rw [hl]
  | cons t ts ih =>
    intro l hl
    rw [subseqs] at hl
    rcases List.mem_append.mp hl with hmap | hrest
    · obtain ⟨l', hl', rfl⟩ := List.mem_map.mp hmap
      exact List.Sublist.cons₂ _ (ih hl')
    · exact List.Sublist.cons _ (ih hrest)

theorem findBatch_sub : ∀ (co : Config) (b : Transaction) (pool combo : List Transaction),
    findBatch co b pool = some combo → List.Sublist combo pool := by
  intro co b pool combo h
  unfold findBatch at h
  have hmem := List.mem_of_find?_eq_some h
  exact (subseqs_sublist hmem).trans
    ((List.take_sublist _ _).trans (List.filter_sublist _))

/-- Claim C1: under distinct input ids, no transaction id (bank or AP)
appears in more than one match of the full engine result, and every id
referenced by a match exists in the corresponding input set. -/
theorem claim_C1_mutual_exclusivity (co : Config) (banks aps : List Transaction)
    (hb : (idsOf banks).Nodup) (ha : (idsOf aps).Nodup) :
    ((matchingEngine co banks aps).matchList.map (fun m => m.bankId)).Nodup
    ∧ ((matchingEngine co banks aps).matchList.flatMap (fun m => m.apIds)).Nodup
    ∧ (∀ m ∈ (matchingEngine co banks aps).matchList,
        m.bankId ∈ idsOf banks ∧ ∀ i ∈ m.apIds, i ∈ idsOf aps) := by
  have hmk1 : ∀ (b : Transaction) (combo : List Transaction),
      (pass1Mk b combo).bankId = b.tid := fun _ _ => rfl
  have hmk3 : ∀ (b : Transaction) (combo : List Transaction),
      (pass3Mk co b combo).bankId = b.tid := fun _ _ => rfl
  have hmk1ap : ∀ (b : Transaction) (combo : List Transaction),
      (pass1Mk b combo).apIds = combo.map (fun t => t.tid) := fun _ _ => rfl
  have hmk3ap : ∀ (b : Transaction) (combo : List Transaction),
      (pass3Mk co b combo).apIds = combo.map (fun t => t.tid) := fun _ _ => rfl
  set M1 := (pass1 banks aps).1 with hM1def
  set UB1 := (pass1 banks aps).2.1 with hUB1def
  set UA1 := (pass1 banks aps).2.2 with hUA1def
  set M2 := (pass2 co UB1 UA1).1 with hM2def
  set UB2 := (pass2 co UB1 UA1).2.1 with hUB2def
  set UA2 := (pass2 co UB1 UA1).2.2 with hUA2def
  set M3 := (pass3 co UB2 UA2).1 with hM3def
  have hA1 : List.Sublist (M1.map (fun m => m.bankId)) (idsOf banks) :=
    scanMatch_bankIds_sublist pass1Pick pass1Mk hmk1 banks aps
  have nd1 : (M1.map (fun m => m.bankId)).Nodup := hb.sublist hA1
  have hub1 : List.Sublist UB1 banks :=
    scanMatch_unmatchedBank_sublist pass1Pick pass1Mk banks aps
  have ndUB1 : (idsOf UB1).Nodup := hb.sublist (idsOf_sublist hub1)
  have disj1 : ∀ i ∈ M1.map (fun m => m.bankId), i ∉ idsOf UB1 :=
    scanMatch_bank_disjoint pass1Pick pass1Mk hmk1 banks aps hb
  have nd2 : (M2.map (fun m => m.bankId)).Nodup := pass2_bank_nodup co UB1 UA1
  have mem2 : ∀ i ∈ M2.map (fun m => m.bankId), i ∈ idsOf UB1 := by
    intro i hi
    obtain ⟨m, hm, rfl⟩ := List.mem_map.mp hi
    exact (pass2_sound m hm).1
  have hub2 : List.Sublist UB2 UB1 := pass2_residue_bank_sublist co UB1 UA1
  have ndUB2 : (idsOf UB2).Nodup := ndUB1.sublist (idsOf_sublist hub2)
  have hA3 : List.Sublist (M3.map (fun m => m.bankId)) (idsOf UB2) :=
    scanMatch_bankIds_sublist (findBatch co) (pass3Mk co) hmk3 UB2 UA2
  have nd3 : (M3.map (fun m => m.bankId)).Nodup := ndUB2.sublist hA3
  have hUB2notM2 : ∀ j ∈ idsOf UB2, j ∉ M2.map (fun m => m.bankId) := by
    intro j hj
    obtain ⟨t, ht, rfl⟩ := mem_idsOf.mp hj
    exact (pass2_residue_bank t ht).2
  have bankNodup : ((M1 ++ M2 ++ M3).map (fun m => m.bankId)).Nodup := by
    rw [List.map_append, List.map_append, List.append_assoc, List.nodup_append]
    refine ⟨nd1, ?_, ?_⟩
    · rw [List.nodup_append]
      refine ⟨nd2, nd3, ?_⟩
      intro i hi2 hi3
      exact hUB2notM2 i (hA3.subset hi3) hi2
    · intro i hi1 hi23
      rcases List.mem_append.mp hi23 with hi2 | hi3
      · exact disj1 i hi1 (mem2 i hi2)
      · exact disj1 i hi1 ((idsOf_sublist hub2).subset (hA3.subset hi3))
  have hap1 := scanMatch_ap_nodup_disjoint pass1Pick pass1Mk pass1Pick_sub hmk1ap banks aps ha
  have ndA1 : (M1.flatMap (fun m => m.apIds)).Nodup := hap1.1
  have disjA1 : ∀ i ∈ M1.flatMap (fun m => m.apIds), i ∉ idsOf UA1 := hap1.2
  have hUA1sub : List.Sublist UA1 aps := scanMatch_apPool_sublist pass1Pick pass1Mk banks aps
  have ndUA1 : (idsOf UA1).Nodup := ha.sublist (idsOf_sublist hUA1sub)
  have ndA2 : (M2.flatMap (fun m => m.apIds)).Nodup := pass2_ap_nodup co UB1 UA1
  have memA2 : ∀ i ∈ M2.flatMap (fun m => m.apIds), i ∈ idsOf UA1 := by
    intro i hi
    obtain ⟨m, hm, him⟩ := List.mem_flatMap.mp hi
    exact (pass2_sound m hm).2.1 i him
  have hUA2sub : List.Sublist UA2 UA1 := pass2_residue_ap_sublist co UB1 UA1
  have ndUA2 : (idsOf UA2).Nodup := ndUA1.sublist (idsOf_sublist hUA2sub)
  have hap3 := scanMatch_ap_nodup_disjoint (findBatch co) (pass3Mk co)
    (findBatch_sub co) hmk3ap UB2 UA2 ndUA2
  have ndA3 : (M3.flatMap (fun m => m.apIds)).Nodup := hap3.1
  have memA3 : ∀ i ∈ M3.flatMap (fun m => m.apIds), i ∈ idsOf UA2 := by
    intro i hi
    obtain ⟨m, hm, him⟩ := List.mem_flatMap.mp hi
    exact scanMatch_apIds_mem (findBatch co) (pass3Mk co) (findBatch_sub co) hmk3ap
      UB2 UA2 m hm i him
  have hUA2notM2 : ∀ j ∈ idsOf UA2, j ∉ M2.flatMap (fun m => m.apIds) := by
    intro j hj
    obtain ⟨t, ht, rfl⟩ := mem_idsOf.mp hj
    exact (pass2_residue_ap t ht).2
  have apNodup : ((M1 ++ M2 ++ M3).flatMap (fun m => m.apIds)).Nodup := by
    rw [List.flatMap_append, List.flatMap_append, List.append_assoc, List.nodup_append]
    refine ⟨ndA1, ?_, ?_⟩
    · rw [List.nodup_append]
      refine ⟨ndA2, ndA3, ?_⟩
      intro i hi2 hi3
      exact hUA2notM2 i (memA3 i hi3) hi2
    · intro i hi1 hi23
      rcases List.mem_append.mp hi23 with hi2 | hi3
      · exact disjA1 i hi1 (memA2 i hi2)
      · exact disjA1 i hi1 ((idsOf_sublist hUA2sub).subset (memA3 i hi3))
  have sound : ∀ m ∈ M1 ++ M2 ++ M3,
      m.bankId ∈ idsOf banks ∧ ∀ i ∈ m.apIds, i ∈ idsOf aps := by
    intro m hm
    rcases List.mem_append.mp hm with hm12 | hm3
    · rcases List.mem_append.mp hm12 with hm1 | hm2
      · constructor
        · exact hA1.subset (List.mem_map_of_mem _ hm1)
        · intro i hi
          exact scanMatch_apIds_mem pass1Pick pass1Mk pass1Pick_sub hmk1ap
            banks aps m hm1 i hi
      · have hs := pass2_sound m hm2
        exact ⟨(idsOf_sublist hub1).subset hs.1,
          fun i hi => (idsOf_sublist hUA1sub).subset (hs.2.1 i hi)⟩
    · constructor
      · have hin : m.bankId ∈ idsOf UB2 := hA3.subset (List.mem_map_of_mem _ hm3)
        exact (idsOf_sublist hub1).subset ((idsOf_sublist hub2).subset hin)
      · intro i hi
        have hin : i ∈ idsOf UA2 := scanMatch_apIds_mem (findBatch co) (pass3Mk co)
          (findBatch_sub co) hmk3ap UB2 UA2 m hm3 i hi
        exact (idsOf_sublist hUA1sub).subset ((idsOf_sublist hUA2sub).subset hin)
  have hML : (matchingEngine co banks aps).matchList = M1 ++ M2 ++ M3 := rfl
  rw [hML]
  exact ⟨bankNodup, apNodup, sound⟩

/-- Witness for claim C1 on a concrete one-pair run. -/
theorem claim_C1_mutual_exclusivity_witness :
    ((matchingEngine defaultConfig [wBank1] [wAp1]).matchList.map
      (fun m => m.bankId)).Nodup := by
  exact (claim_C1_mutual_exclusivity defaultConfig [wBank1] [wAp1]
    (by decide) (by decide)).1

theorem engine_rawScore_bounds (co : Config) (banks aps : List Transaction) :
    ∀ m ∈ (matchingEngine co banks aps).matchList,
      0 ≤ m.rawScore ∧ m.rawScore ≤ 1 := by
  intro m hm
  have hML : (matchingEngine co banks aps).matchList
      = (pass1 banks aps).1
        ++ (pass2 co (pass1 banks aps).2.1 (pass1 banks aps).2.2).1
        ++ (pass3 co (pass2 co (pass1 banks aps).2.1 (pass1 banks aps).2.2).2.1
            (pass2 co (pass1 banks aps).2.1 (pass1 banks aps).2.2).2.2).1 := rfl
  rw [hML] at hm
  rcases List.mem_append.mp hm with hm12 | hm3
  · rcases List.mem_append.mp hm12 with hm1 | hm2
    · obtain ⟨b, pool, combo, _, _, _, rfl⟩ :=
        scanMatch_sound pass1Pick pass1Mk banks aps m hm1
      exact ⟨by norm_num [pass1Mk], by norm_num [pass1Mk]⟩
    · obtain ⟨_, _, _, b, a, _, _, hsc⟩ := pass2_sound m hm2
      rw [hsc]
      exact ⟨fuzzyScore_nonneg co b a, fuzzyScore_le_one co b a⟩
  · obtain ⟨b, pool, combo, _, _, _, rfl⟩ :=
      scanMatch_sound (findBatch co) (pass3Mk co) _ _ m hm3
    exact ⟨batchConfidence_nonneg co b combo, batchConfidence_le_one co b combo⟩

theorem vendorBoost_nonneg (vv : VendorValidation) : 0 ≤ vendorBoost vv := by
  unfold vendorBoost
  split_ifs <;> norm_num

theorem vendorBoost_le_three (vv : VendorValidation) : vendorBoost vv ≤ 3 / 100 := by
  unfold vendorBoost
  split_ifs <;> norm_num

theorem vendorBoost_active {vv : VendorValidation}
    (h : (vv.isActive && vv.ticker.isSome) = true) : 1 / 50 ≤ vendorBoost vv := by
  unfold vendorBoost
  rw [if_pos h]
  split_ifs <;> norm_num

theorem validateVendor_active_ticker (quotes : List (String × ℚ)) (n : String)
    (h : (validateVendor quotes n).isActive = true) :
    (validateVendor quotes n).ticker.isSome = true := by
  unfold validateVendor at h ⊢
  cases hr : resolveTicker n with
  | none => simp [hr] at h
  | some t =>
    cases hq : (quotes.find? (fun q => q.1 == t)).map (fun q => q.2) with
    | none => simp [hr, hq] at h
    | some p => simp [hq]

theorem matchBoost_nonneg (quotes : List (String × ℚ)) (aps : List Transaction)
    (cand : MatchCandidate) : 0 ≤ matchBoost quotes aps cand := by
  unfold matchBoost
  cases vendorOfMatch aps cand with
  | none => norm_num
  | some n => exact vendorBoost_nonneg _

theorem adjustMatch_some_confidence (s : MarketSnapshot) (quotes : List (String × ℚ))
    (banks aps : List Transaction) (m : Match) :
    (adjustMatch (some s) quotes banks aps m).confidence
      = min 1 (m.confidence + matchBoost quotes aps m.cand) := rfl

theorem adjustMatch_bounds (snap : Option MarketSnapshot) (quotes : List (String × ℚ))
    (banks aps : List Transaction) (m : Match)
    (h0 : 0 ≤ m.confidence) (h1 : m.confidence ≤ 1) :
    0 ≤ (adjustMatch snap quotes banks aps m).confidence
    ∧ (adjustMatch snap quotes banks aps m).confidence ≤ 1 := by
  cases snap with
  | none => exact ⟨h0, h1⟩
  | some s =>
    rw [adjustMatch_some_confidence]
    have hboost := matchBoost_nonneg quotes aps m.cand
    constructor
    · exact le_min (by norm_num) (by linarith)
    · exact min_le_left _ _

/-- Claim C2: every match of the final reconciliation result has
confidence in the unit interval after economic adjustment; the
confirmed-active vendor boost lies between 2/100 and 3/100; and the
snapshot-present adjustment caps confidence at 1. -/
theorem claim_C2_confidence_bounds :
    (∀ (co : Config) (pd : ProviderData) (c : MarketCache)
        (banks aps : List Transaction),
      ∀ m ∈ (reconcile co pd c banks aps).1.matchList,
        0 ≤ m.confidence ∧ m.confidence ≤ 1)
    ∧ (∀ (quotes : List (String × ℚ)) (n : String),
        (validateVendor quotes n).isActive = true →
          1 / 50 ≤ vendorBoost (validateVendor quotes n)
          ∧ vendorBoost (validateVendor quotes n) ≤ 3 / 100)
    ∧ (∀ (s : MarketSnapshot) (quotes : List (String × ℚ))
        (banks aps : List Transaction) (m : Match),
        (adjustMatch (some s) quotes banks aps m).confidence ≤ 1) := by
  refine ⟨?_, ?_, ?_⟩
  · intro co pd c banks aps m hm
    have hML : (reconcile co pd c banks aps).1.matchList
        = (initialMatches (matchingEngine co banks aps)).map
          (adjustMatch (fetchSnapshot pd c).1 pd.quotes banks aps) := rfl
    rw [hML] at hm
    obtain ⟨m0, hm0, rfl⟩ := List.mem_map.mp hm
    obtain ⟨cd, hcd, rfl⟩ := List.mem_map.mp hm0
    have hb := engine_rawScore_bounds co banks aps cd hcd
    exact adjustMatch_bounds _ _ _ _ _ hb.1 hb.2
  · intro quotes n h
    have ht := validateVendor_active_ticker quotes n h
    refine ⟨vendorBoost_active ?_, vendorBoost_le_three _⟩
    rw [h, ht]
    rfl
  · intro s quotes banks aps m
    rw [adjustMatch_some_confidence]
    exact min_le_left _ _

/-- Witness for claim C2 on a concrete run and a concrete active vendor. -/
theorem claim_C2_confidence_bounds_witness :
    (0 ≤ ({ cand := pass1Mk wBank1 [wAp1], confidence := 1
          , economicFlags := [] } : Match).confidence)
    ∧ 1 / 50 ≤ vendorBoost (validateVendor [("MSFT", 100)] "Microsoft Corp") := by
  constructor
  · exact (claim_C2_confidence_bounds.1 defaultConfig
      { snapshotSources := [], quotes := [] } emptyCache [wBank1] [wAp1]
      _ (by decide)).1
  · exact (claim_C2_confidence_bounds.2.1 [("MSFT", 100)] "Microsoft Corp"
      (by decide)).1

theorem duplicatePairs_complete : ∀ {l : List Transaction} {x y : Transaction},
    List.Sublist [x, y] l → duplicatePair x y = true → (x, y) ∈ duplicatePairs l := by
  intro l
  induction l with
  | nil =>
    intro x y h _
    exact absurd (List.sublist_nil.mp h) (by simp)
  | cons a rest ih =>
    intro x y h hdup
    cases h with
    | cons _ h' =>
      exact List.mem_append_right _ (ih h' hdup)
    | cons₂ _ h' =>
      have hy : y ∈ rest := List.singleton_sublist.mp h'
      refine List.mem_append_left _ ?_
      exact List.mem_map.mpr ⟨y, List.mem_filter.mpr ⟨hy, hdup⟩, rfl⟩

theorem detect_duplicate_exists (co : Config) (ms : List MatchCandidate)
    (banks aps unB unA : List Transaction) {x y : Transaction}
    (hsub : List.Sublist [x, y] unA) (hdup : duplicatePair x y = true) :
    ∃ e ∈ detectExceptions co ms banks aps unB unA,
      e.etype = ExceptionType.duplicatePayment ∧ e.severity = Severity.high
      ∧ e.transactionId = some y.tid := by
  refine ⟨mkException ExceptionType.duplicatePayment (some y.tid) y.amountCents
    "same vendor and amount within 7 days" "Review potential duplicate",
    ?_, rfl, rfl, rfl⟩
  have hB : mkException ExceptionType.duplicatePayment (some y.tid) y.amountCents
      "same vendor and amount within 7 days" "Review potential duplicate"
        ∈ exceptionsDuplicate unA :=
    List.mem_map.mpr ⟨(x, y), duplicatePairs_complete hsub hdup, rfl⟩
  exact List.mem_append_left _ (List.mem_append_left _
    (List.mem_append_left _ (List.mem_append_right _ hB)))

theorem append_get_cases {α : Type} (l₁ l₂ : List α) (i : Nat)
    (h : i < (l₁ ++ l₂).length) :
    (i < l₁.length ∧ (l₁ ++ l₂).get ⟨i, h⟩ ∈ l₁)
    ∨ (l₁.length ≤ i ∧ (l₁ ++ l₂).get ⟨i, h⟩ ∈ l₂) := by
  by_cases hi : i < l₁.length
  · left
    refine ⟨hi, ?_⟩
    rw [List.get_eq_getElem, List.getElem_append_left hi]
    exact List.getElem_mem _
  · right
    refine ⟨le_of_not_lt hi, ?_⟩
    rw [List.get_eq_getElem, List.getElem_append_right (le_of_not_lt hi)]
    exact List.getElem_mem _

theorem append_blocks_order {α : Type} (P Q : α → Prop) (l l₁ l₂ : List α)
    (hl : l = l₁ ++ l₂)
    (h1 : ∀ e ∈ l₁, ¬ Q e) (h2 : ∀ e ∈ l₂, ¬ P e) :
    ∀ (i j : Nat) (hi : i < l.length) (hj : j < l.length),
      P (l.get ⟨i, hi⟩) → Q (l.get ⟨j, hj⟩) → i < j := by
  subst hl
  intro i j hi hj hP hQ
  rcases append_get_cases l₁ l₂ i hi with ⟨hlt, _⟩ | ⟨_, hmem⟩
  · rcases append_get_cases l₁ l₂ j hj with ⟨_, hmem2⟩ | ⟨hge2, _⟩
    · exact absurd hQ (h1 _ hmem2)
    · omega
  · exact absurd hP (h2 _ hmem)

/-- Claim C8: every same-vendor, same-amount AP-residue pair posted within
seven days yields a duplicate-payment exception of severity high
referencing one of the pair, and in the detector output every
duplicate-payment exception precedes every missing-bank-record
exception. -/
theorem claim_C8_duplicate_priority (co : Config) (ms : List MatchCandidate)
    (banks aps unB unA : List Transaction) :
    (∀ x y : Transaction, List.Sublist [x, y] unA →
      sameVendor x y = true → x.amountCents = y.amountCents →
      (y.date - x.date).natAbs ≤ 7 →
      ∃ e ∈ detectExceptions co ms banks aps unB unA,
        e.etype = ExceptionType.duplicatePayment ∧ e.severity = Severity.high
        ∧ e.transactionId = some y.tid)
    ∧ (∀ (i j : Nat) (hi : i < (detectExceptions co ms banks aps unB unA).length)
        (hj : j < (detectExceptions co ms banks aps unB unA).length),
        ((detectExceptions co ms banks aps unB unA).get ⟨i, hi⟩).etype
            = ExceptionType.duplicatePayment →
        ((detectExceptions co ms banks aps unB unA).get ⟨j, hj⟩).etype
            = ExceptionType.missingBankRecord →
        i < j) := by
  constructor
  · intro x y hsub hv hamt hdate
    have hdup : duplicatePair x y = true := by
      unfold duplicatePair
      simp [hv, hamt, hdate]
    exact detect_duplicate_exists co ms banks aps unB unA hsub hdup
  · have hsplit : detectExceptions co ms banks aps unB unA
        = (exceptionsMissingAp unB ++ exceptionsDuplicate unA)
          ++ (exceptionsMissingBank unA
            ++ (exceptionsAmountMismatch co ms banks aps
              ++ exceptionsStaleCheck ms banks aps)) := by
      simp [detectExceptions, List.append_assoc]
    have hAB : ∀ e ∈ exceptionsMissingAp unB ++ exceptionsDuplicate unA,
        ¬ e.etype = ExceptionType.missingBankRecord := by
      intro e he
      rcases List.mem_append.mp he with h | h
      · rw [(mem_exceptionsMissingAp h).1]
        simp
      · rw [(mem_exceptionsDuplicate h).1]
        simp
    have hCDE : ∀ e ∈ exceptionsMissingBank unA
        ++ (exceptionsAmountMismatch co ms banks aps
          ++ exceptionsStaleCheck ms banks aps),
        ¬ e.etype = ExceptionType.duplicatePayment := by
      intro e he
      rcases List.mem_append.mp he with h | h
      · rw [(mem_exceptionsMissingBank h).1]
        simp
      · rcases List.mem_append.mp h with h2 | h2
        · rw [(mem_exceptionsAmountMismatch h2).1]
          simp
        · rw [(mem_exceptionsStaleCheck h2).1]
          simp
    exact append_blocks_order
      (fun e => e.etype = ExceptionType.duplicatePayment)
      (fun e => e.etype = ExceptionType.missingBankRecord)
      _ _ _ hsplit hAB hCDE

/-- Witness for claim C8 on the concrete pair wDup1/wDup2. -/
theorem claim_C8_duplicate_priority_witness :
    ∃ e ∈ detectExceptions defaultConfig [] [] [] [] [wDup1, wDup2],
      e.etype = ExceptionType.duplicatePayment ∧ e.severity = Severity.high
      ∧ e.transactionId = some wDup2.tid := by
  exact (claim_C8_duplicate_priority defaultConfig [] [] [] [] [wDup1, wDup2]).1
    wDup1 wDup2 (List.Sublist.refl _) (by decide) (by decide) (by decide)

/-- Witness for claim C7 on a run with one unmatched bank transaction. -/
theorem claim_C7_taxonomy_witness :
    (mkException ExceptionType.missingApRecord (some "B1") (-150000)
        "bank transaction with no AP match" "Investigate bank transaction").severity
      = severityOf (mkException ExceptionType.missingApRecord (some "B1") (-150000)
        "bank transaction with no AP match" "Investigate bank transaction").etype := by
  exact ((claim_C7_taxonomy defaultConfig [] [] [] [wBank1] []).1 _ (by decide)).1

end Recon
